import Mathlib

/-!
Shallow embedding of `cygraph` (src/cygraph/graph.pyx): the `StaticGraph` and
`DynamicGraph` classes and the shared `Graph` base-class helpers.

Modelling conventions:
* Vertices are Python hashable objects; we model them as `ℕ`.
* Attribute keys and values are Python objects; we model both as `ℕ`.
* Edge weights are `float64` in the source; we model them as `ℚ`.  The
  `StaticGraph` backend stores weights in a numpy matrix with `nan` as the
  "no edge" sentinel, the `DynamicGraph` backend in a list of lists with
  `None` as the sentinel; both sentinels are modelled as `Option.none`, a
  defined weight `w` as `some w`.  (A `nan` *weight argument* to
  `StaticGraph.add_edge` would be conflated with the sentinel; weights are
  taken to be ordinary, non-nan numbers.)
* Python `dict`s (insertion ordered) are modelled as association lists:
  setting an existing key updates it in place, a new key is appended.
* Python exceptions: mutating methods return the raised error (if any)
  *together with* the post-state, because the source mutates `self` before
  some raises (e.g. `add_vertex` resets the attribute entry before the
  duplicate check), so the state after an exception is observable.
* `_edge_attributes` is keyed by Python tuples; `add_edge` inserts 2-tuples
  `(v1, v2)` while `__copy__` looks entries up under the 3-tuple
  `(v1, v2, weight)` taken from `edges`.  Python tuples of different arity
  are never equal, so the key type is a sum of both shapes (`PyKey`).
-/

namespace Cygraph

/-- Keys of the `_edge_attributes` dict: Python tuples of arity 2 or 3.
Tuples of different arity are never equal in Python. -/
inductive PyKey where
  | pair (a b : ℕ) : PyKey
  | triple (a b : ℕ) (w : ℚ) : PyKey
deriving DecidableEq, Repr

/-- Python exceptions raised by the graph methods (identified by their type
and the data interpolated into their message). -/
inductive PyErr where
  /-- `ValueError(f"{vertex} is not in graph.")` from `_get_vertex_int`. -/
  | notInGraph (v : ℕ) : PyErr
  /-- `ValueError(f"{v} is already in graph")` from `add_vertex`. -/
  | alreadyInGraph (v : ℕ) : PyErr
  /-- `ValueError(f"There is no edge ({v1}, {v2}) in graph.")`. -/
  | noEdge (v1 v2 : ℕ) : PyErr
  /-- `ValueError(f"{edge} is not in graph.")` from edge-attribute access. -/
  | edgeNotInGraph (e : PyKey) : PyErr
  /-- `ValueError` raised by `np.append` on a dimension mismatch. -/
  | npDimMismatch : PyErr
  /-- `KeyError` from a failed `dict` subscript. -/
  | keyError : PyErr
  /-- `AttributeError` from accessing a method name that does not exist
  (the source misspells `set_vertex_attribtue` in `__copy__`). -/
  | attributeError : PyErr
deriving DecidableEq, Repr

/-- An attribute map: a Python dict from keys to values. -/
abbrev Attrs := List (ℕ × ℕ)

/-- Python dict lookup (`d[k]`, `None` meaning `KeyError`). -/
def dGet {α β : Type} [DecidableEq α] (d : List (α × β)) (k : α) : Option β :=
  match d with
  | [] => none
  | (k', v) :: rest => if k' = k then some v else dGet rest k

/-- Python dict assignment `d[k] = v`: updates an existing key in place,
appends a new key (dicts preserve insertion order). -/
def dSet {α β : Type} [DecidableEq α] (d : List (α × β)) (k : α) (v : β) :
    List (α × β) :=
  match d with
  | [] => [(k, v)]
  | (k', v') :: rest =>
      if k' = k then (k, v) :: rest else (k', v') :: dSet rest k v

/-- The keys of a dict, in order. -/
def dKeys {α β : Type} (d : List (α × β)) : List α := d.map (·.1)

/-- `list.index(v)`: position of the first occurrence. -/
def pyIndex (l : List ℕ) (v : ℕ) : ℕ :=
  match l with
  | [] => 0
  | x :: xs => if x = v then 0 else pyIndex xs v + 1

/-- `list.remove(v)`: deletes the first occurrence. -/
def pyRemove (l : List ℕ) (v : ℕ) : List ℕ :=
  match l with
  | [] => []
  | x :: xs => if x = v then xs else x :: pyRemove xs v

/-- The adjacency storage: a row-major grid of optional weights
(`StaticGraph`: numpy matrix with nan sentinel; `DynamicGraph`: list of
lists with `None` sentinel). -/
abbrev Mat := List (List (Option ℚ))

/-- Read cell `(i, j)` of the grid (out of range reads never occur on the
states reachable in the source; they yield `none` here). -/
def cell (M : Mat) (i j : ℕ) : Option ℚ :=
  ((M[i]?.bind fun row => row[j]?).getD none)

/-- Write cell `(i, j)` of the grid (`M[i][j] = x`). -/
def setCell (M : Mat) (i j : ℕ) (x : Option ℚ) : Mat :=
  match M[i]? with
  | none => M
  | some row => M.set i (row.set j x)

/-- An `n × n` grid with every cell absent (`np.full((n, n), np.nan)` /
the nested `None` list built by the constructors). -/
def fullNone (n : ℕ) : Mat :=
  List.replicate n (List.replicate n (none : Option ℚ))

/-- The shared state of a graph object: `directed`, `vertices`,
`_vertex_attributes`, `_edge_attributes` and the adjacency storage.
Both backends have exactly these fields. -/
structure CyGraph where
  directed : Bool
  vertices : List ℕ
  vertex_attributes : List (ℕ × Attrs)
  edge_attributes : List (PyKey × Attrs)
  adjacency_matrix : Mat
deriving DecidableEq, Repr

/-- `Graph._get_vertex_int`: `self.vertices.index(vertex)`, raising
`ValueError` when absent. -/
def get_vertex_int (G : CyGraph) (v : ℕ) : Except PyErr ℕ :=
  if v ∈ G.vertices then .ok (pyIndex G.vertices v) else .error (.notInGraph v)

/-- The `StaticGraph` / `DynamicGraph` constructor called with `directed`
and `vertices` (no source graph): copies the vertex list, gives every
vertex an empty attribute dict, and allocates an all-absent `n × n`
adjacency grid.  Identical in both backends. -/
def init (directed : Bool) (vertices : List ℕ) : CyGraph :=
  { directed := directed
    vertices := vertices
    vertex_attributes := vertices.foldl (fun m v => dSet m v []) []
    edge_attributes := []
    adjacency_matrix := fullNone vertices.length }

/-- `add_edge(v1, v2, weight)`: resolves both endpoints (raising
`ValueError` if absent), re-initializes `_edge_attributes[(v1, v2)] = {}`,
sets the cell, and the mirror cell too when undirected.  Identical in
both backends up to the sentinel. -/
def add_edge (G : CyGraph) (v1 v2 : ℕ) (weight : ℚ) :
    Option PyErr × CyGraph :=
  match get_vertex_int G v1 with
  | .error e => (some e, G)
  | .ok u =>
    match get_vertex_int G v2 with
    | .error e => (some e, G)
    | .ok v =>
      let G := { G with
        edge_attributes := dSet G.edge_attributes (.pair v1 v2) [] }
      let M := setCell G.adjacency_matrix u v (some weight)
      let M := if G.directed then M else setCell M v u (some weight)
      (none, { G with adjacency_matrix := M })

/-- `remove_edge(v1, v2)`: resolves both endpoints (raising `ValueError`
if absent); when the cell is absent it only emits
`warnings.warn("Attempting to remove edge that doesn't exist.")` (the
`Bool` component), otherwise clears the cell and the mirror cell when
undirected.  `_edge_attributes` is not touched.  Identical in both
backends up to the sentinel. -/
def remove_edge (G : CyGraph) (v1 v2 : ℕ) :
    Option PyErr × Bool × CyGraph :=
  match get_vertex_int G v1 with
  | .error e => (some e, false, G)
  | .ok u =>
    match get_vertex_int G v2 with
    | .error e => (some e, false, G)
    | .ok v =>
      match cell G.adjacency_matrix u v with
      | none => (none, true, G)
      | some _ =>
        let M := setCell G.adjacency_matrix u v none
        let M := if G.directed then M else setCell M v u none
        (none, false, { G with adjacency_matrix := M })

/-- `has_edge(v1, v2)`: returns `False` (instead of raising) when either
vertex is unknown, else tests the cell against the sentinel. -/
def has_edge (G : CyGraph) (v1 v2 : ℕ) : Bool :=
  if v1 ∈ G.vertices ∧ v2 ∈ G.vertices then
    (cell G.adjacency_matrix (pyIndex G.vertices v1)
      (pyIndex G.vertices v2)).isSome
  else false

/-- `has_vertex(vertex)`: `vertex in self.vertices`. -/
def has_vertex (G : CyGraph) (v : ℕ) : Bool := v ∈ G.vertices

/-- `get_edge_weight(v1, v2)`: resolves both endpoints (raising
`ValueError` if absent), returns the stored weight, raising `ValueError`
when the cell holds the sentinel. -/
def get_edge_weight (G : CyGraph) (v1 v2 : ℕ) : Except PyErr ℚ :=
  match get_vertex_int G v1 with
  | .error e => .error e
  | .ok u =>
    match get_vertex_int G v2 with
    | .error e => .error e
    | .ok v =>
      match cell G.adjacency_matrix u v with
      | some w => .ok w
      | none => .error (.noEdge v1 v2)

/-- `StaticGraph.add_vertex(v)`: note the source sets
`self._vertex_attributes[v] = {}` *before* the duplicate check.  On the
success path it appends `v` and grows the matrix through
`np.append(matrix, new_row, axis=0)` followed by a column append; the
row append raises `ValueError` when the matrix's column count differs
from `len(self.vertices)` at entry (which happens after a
`remove_vertex`, since that never shrinks the matrix — see
`remove_vertex_static`), and the column append likewise needs the row
count to match.  On that raise the matrix is left unchanged (on the
reachable, square matrices the two `np.append`s succeed or fail
together). -/
def add_vertex_static (G : CyGraph) (v : ℕ) : Option PyErr × CyGraph :=
  let n := G.vertices.length
  let G := { G with vertex_attributes := dSet G.vertex_attributes v [] }
  if v ∈ G.vertices then (some (.alreadyInGraph v), G)
  else
    let G := { G with vertices := G.vertices ++ [v] }
    if n = 0 then
      (none, { G with adjacency_matrix := fullNone 1 })
    else if ((G.adjacency_matrix.head?.map List.length).getD 0 = n
        ∧ G.adjacency_matrix.length = n) then
      let M := (G.adjacency_matrix ++ [List.replicate n none]).map (· ++ [none])
      (none, { G with adjacency_matrix := M })
    else
      (some .npDimMismatch, G)

/-- `DynamicGraph.add_vertex(v)`: same early attribute write and duplicate
check; on success appends `v`, appends a fresh all-`None` row of length
`vertex_number + 1`, and appends `None` to every pre-existing row.  No
dimension check is involved, so this never raises beyond the duplicate
case. -/
def add_vertex_dynamic (G : CyGraph) (v : ℕ) : Option PyErr × CyGraph :=
  let n := G.vertices.length
  let G := { G with vertex_attributes := dSet G.vertex_attributes v [] }
  if v ∈ G.vertices then (some (.alreadyInGraph v), G)
  else
    let M := (G.adjacency_matrix.map (· ++ [none]))
      ++ [List.replicate (n + 1) (none : Option ℚ)]
    (none, { G with vertices := G.vertices ++ [v], adjacency_matrix := M })

/-- `StaticGraph.remove_vertex(v)`: resolves `v` (raising `ValueError` if
absent) and removes it from `self.vertices`.  The two
`np.delete(self._adjacency_matrix, u, ...)` calls return *new* arrays
whose results are discarded, so the adjacency matrix is left unchanged;
`_vertex_attributes` and `_edge_attributes` are not touched either. -/
def remove_vertex_static (G : CyGraph) (v : ℕ) : Option PyErr × CyGraph :=
  match get_vertex_int G v with
  | .error e => (some e, G)
  | .ok _ => (none, { G with vertices := pyRemove G.vertices v })

/-- `DynamicGraph.remove_vertex(v)`: resolves `v` (raising `ValueError` if
absent), removes it from `self.vertices`, pops row `u` from the matrix
and pops entry `u` from every remaining row.  `_vertex_attributes` and
`_edge_attributes` are not touched. -/
def remove_vertex_dynamic (G : CyGraph) (v : ℕ) : Option PyErr × CyGraph :=
  match get_vertex_int G v with
  | .error e => (some e, G)
  | .ok u =>
    let M := (G.adjacency_matrix.eraseIdx u).map (fun row => row.eraseIdx u)
    (none, { G with vertices := pyRemove G.vertices v, adjacency_matrix := M })

/-- `Graph.set_vertex_attribute(vertex, key, val)`:
`self._vertex_attributes[vertex][key] = val`, with `KeyError` translated
to `ValueError`. -/
def set_vertex_attribute (G : CyGraph) (vertex key val : ℕ) :
    Option PyErr × CyGraph :=
  match dGet G.vertex_attributes vertex with
  | none => (some (.notInGraph vertex), G)
  | some m =>
    let va := dSet G.vertex_attributes vertex (dSet m key val)
    (none, { G with vertex_attributes := va })

/-- `Graph.get_vertex_attribute(vertex, key)`. -/
def get_vertex_attribute (G : CyGraph) (vertex key : ℕ) : Except PyErr ℕ :=
  match dGet G.vertex_attributes vertex with
  | none => .error (.notInGraph vertex)
  | some m =>
    match dGet m key with
    | none => .error .keyError
    | some val => .ok val

/-- `Graph.set_edge_attribute(edge, key, val)` for a 2-tuple `edge`:
tries the key `(v1, v2)`, and for undirected graphs falls back to
`(v2, v1)` before raising `ValueError`. -/
def set_edge_attribute (G : CyGraph) (e : ℕ × ℕ) (key val : ℕ) :
    Option PyErr × CyGraph :=
  match dGet G.edge_attributes (.pair e.1 e.2) with
  | some m =>
    let ea := dSet G.edge_attributes (.pair e.1 e.2) (dSet m key val)
    (none, { G with edge_attributes := ea })
  | none =>
    if G.directed then (some (.edgeNotInGraph (.pair e.1 e.2)), G)
    else
      match dGet G.edge_attributes (.pair e.2 e.1) with
      | some m =>
        let ea := dSet G.edge_attributes (.pair e.2 e.1) (dSet m key val)
        (none, { G with edge_attributes := ea })
      | none => (some (.edgeNotInGraph (.pair e.1 e.2)), G)

/-- `Graph.get_edge_attribute(edge, key)` for a 2-tuple `edge`, with the
same reversed-tuple fallback for undirected graphs. -/
def get_edge_attribute (G : CyGraph) (e : ℕ × ℕ) (key : ℕ) :
    Except PyErr ℕ :=
  match dGet G.edge_attributes (.pair e.1 e.2) with
  | some m =>
    (match dGet m key with
     | none => .error .keyError
     | some val => .ok val)
  | none =>
    if G.directed then .error (.edgeNotInGraph (.pair e.1 e.2))
    else
      match dGet G.edge_attributes (.pair e.2 e.1) with
      | some m =>
        (match dGet m key with
         | none => .error .keyError
         | some val => .ok val)
      | none => .error (.edgeNotInGraph (.pair e.1 e.2))

/-- `get_children(v)`: the set of `self.vertices[u]` over defined cells
`(w, u)` where `w` is `v`'s position.  Returned as the list of such
vertices in scan order (a model of the Python set). -/
def get_children (G : CyGraph) (v : ℕ) : Except PyErr (List ℕ) :=
  match get_vertex_int G v with
  | .error e => .error e
  | .ok w =>
    .ok ((List.range G.vertices.length).foldl (fun acc u =>
      if (cell G.adjacency_matrix w u).isSome then
        (if G.vertices.getD u 0 ∈ acc then acc else acc ++ [G.vertices.getD u 0])
      else acc) [])

/-- `get_parents(v)`: like `get_children` with the cell transposed. -/
def get_parents (G : CyGraph) (v : ℕ) : Except PyErr (List ℕ) :=
  match get_vertex_int G v with
  | .error e => .error e
  | .ok w =>
    .ok ((List.range G.vertices.length).foldl (fun acc u =>
      if (cell G.adjacency_matrix u w).isSome then
        (if G.vertices.getD u 0 ∈ acc then acc else acc ++ [G.vertices.getD u 0])
      else acc) [])

/-- The row-major cell scan order `(u, v)` of the nested
`for u in range(n): for v in range(n)` loops of the `edges` property. -/
def gridPairs (n : ℕ) : List (ℕ × ℕ) :=
  (List.range n).bind fun u => (List.range n).map fun v => (u, v)

/-- One step of the undirected `edges` scan: a defined cell `(u, v)` is
turned into the triple `(vertices[u], vertices[v], weight)`, skipped if a
triple with the reversed endpoints was already collected
(`existing_edge[0] == new_edge[1] and existing_edge[1] == new_edge[0]`),
and otherwise added to the (set-modelling, duplicate-free) list. -/
def edgesStepUndir (vs : List ℕ) (M : Mat) (acc : List (ℕ × ℕ × ℚ))
    (p : ℕ × ℕ) : List (ℕ × ℕ × ℚ) :=
  match cell M p.1 p.2 with
  | none => acc
  | some w =>
    let t : ℕ × ℕ × ℚ := (vs.getD p.1 0, vs.getD p.2 0, w)
    if acc.any fun e => e.1 = t.2.1 ∧ e.2.1 = t.1 then acc
    else if t ∈ acc then acc else acc ++ [t]

/-- One step of the directed `edges` scan: every defined cell contributes
its triple (set semantics: duplicates collapse). -/
def edgesStepDir (vs : List ℕ) (M : Mat) (acc : List (ℕ × ℕ × ℚ))
    (p : ℕ × ℕ) : List (ℕ × ℕ × ℚ) :=
  match cell M p.1 p.2 with
  | none => acc
  | some w =>
    let t : ℕ × ℕ × ℚ := (vs.getD p.1 0, vs.getD p.2 0, w)
    if t ∈ acc then acc else acc ++ [t]

/-- The `edges` property: the materialized set of `(v1, v2, weight)`
triples, modelled as the duplicate-free list collected in scan order.
Identical in both backends up to the sentinel. -/
def edges (G : CyGraph) : List (ℕ × ℕ × ℚ) :=
  if G.directed then
    (gridPairs G.vertices.length).foldl
      (edgesStepDir G.vertices G.adjacency_matrix) []
  else
    (gridPairs G.vertices.length).foldl
      (edgesStepUndir G.vertices G.adjacency_matrix) []

/-- A public mutating operation of the `Graph` contract.  The query
methods (`has_vertex`, `has_edge`, `get_edge_weight`, `get_children`,
`get_parents`, attribute getters, `edges`) never change the state, so a
"sequence of public operations" is captured by its mutating members. -/
inductive Op where
  | addVertex (v : ℕ) : Op
  | removeVertex (v : ℕ) : Op
  | addEdge (v1 v2 : ℕ) (w : ℚ) : Op
  | removeEdge (v1 v2 : ℕ) : Op
  | setVertexAttr (v key val : ℕ) : Op
  | setEdgeAttr (a b key val : ℕ) : Op
deriving DecidableEq, Repr

/-- Execute one operation on a `StaticGraph`, keeping the post-state
whether or not the call raised (the source mutates `self` in place, so a
raise leaves whatever was already written). -/
def stepStatic (G : CyGraph) (op : Op) : CyGraph :=
  match op with
  | .addVertex v => (add_vertex_static G v).2
  | .removeVertex v => (remove_vertex_static G v).2
  | .addEdge v1 v2 w => (add_edge G v1 v2 w).2
  | .removeEdge v1 v2 => (remove_edge G v1 v2).2.2
  | .setVertexAttr v k x => (set_vertex_attribute G v k x).2
  | .setEdgeAttr a b k x => (set_edge_attribute G (a, b) k x).2

/-- Execute one operation on a `DynamicGraph`. -/
def stepDynamic (G : CyGraph) (op : Op) : CyGraph :=
  match op with
  | .addVertex v => (add_vertex_dynamic G v).2
  | .removeVertex v => (remove_vertex_dynamic G v).2
  | .addEdge v1 v2 w => (add_edge G v1 v2 w).2
  | .removeEdge v1 v2 => (remove_edge G v1 v2).2.2
  | .setVertexAttr v k x => (set_vertex_attribute G v k x).2
  | .setEdgeAttr a b k x => (set_edge_attribute G (a, b) k x).2

/-- Run a sequence of public operations on a `StaticGraph`. -/
def runStatic (G : CyGraph) (ops : List Op) : CyGraph :=
  ops.foldl stepStatic G

/-- Run a sequence of public operations on a `DynamicGraph`. -/
def runDynamic (G : CyGraph) (ops : List Op) : CyGraph :=
  ops.foldl stepDynamic G

/-- `StaticGraph.__copy__` (the `DynamicGraph` version is line-for-line
identical up to the backend of the fresh graph, which only matters for
the adjacency sentinel): builds a fresh graph from `self.directed` and
`self.vertices`, then for each member `edge` of the `edges` property
(a `(v1, v2, weight)` 3-tuple) calls `add_edge(*edge)` and iterates over
`self._edge_attributes[edge]` — a lookup of the *3-tuple* in a dict keyed
by 2-tuples, hence a `KeyError` as soon as the graph has an edge.  Were
an entry found, its keys would be copied via
`new_graph.set_edge_attribute(edge, key, ...)`.  Finally every vertex's
attribute keys are copied via the misspelled `set_vertex_attribtue`,
which raises `AttributeError` on its first call. -/
def copyGraph (G : CyGraph) : Except PyErr CyGraph := do
  let g0 := init G.directed G.vertices
  let g1 ← (edges G).foldlM (fun g e => do
      let g := (add_edge g e.1 e.2.1 e.2.2).2
      match dGet G.edge_attributes (.triple e.1 e.2.1 e.2.2) with
      | none => throw .keyError
      | some attrs =>
        attrs.foldlM (fun g kv =>
          match set_edge_attribute g (e.1, e.2.1) kv.1 kv.2 with
          | (some err, _) => throw err
          | (none, g') => pure g') g) g0
  let g2 ← G.vertices.foldlM (fun g v =>
      match dGet G.vertex_attributes v with
      | none => pure g
      | some [] => pure g
      | some (_ :: _) => (throw .attributeError : Except PyErr CyGraph)) g1
  return g2

/-- `StaticGraph(graph=g)`: the base `Graph.__cinit__` runs first and
deep-copies `_vertex_attributes` and `_edge_attributes` and copies
`directed` and `vertices`; then `StaticGraph.__cinit__` allocates an
all-absent `len(g.vertices)`-square matrix and replays
`self.add_edge(edge[0], edge[1])` for each member of `g.edges` — with
`add_edge`'s *default weight 1.0*, dropping the stored weight (and
resetting each replayed edge's attribute entry). -/
def staticFromGraph (g : CyGraph) : CyGraph :=
  let base : CyGraph :=
    { directed := g.directed
      vertices := g.vertices
      vertex_attributes := g.vertex_attributes
      edge_attributes := g.edge_attributes
      adjacency_matrix := fullNone g.vertices.length }
  (edges g).foldl (fun st e => (add_edge st e.1 e.2.1 1).2) base

/-- The adjacency grid is rectangular and square (numpy arrays are; the
list-of-lists backend keeps it so). -/
def SquareMat (M : Mat) : Prop := ∀ row ∈ M, row.length = M.length

/-- Well-formedness maintained by every `StaticGraph` state: the matrix is
square and at least as large as the vertex list (strictly larger exactly
after `remove_vertex`, which never shrinks it). -/
def WfS (G : CyGraph) : Prop :=
  SquareMat G.adjacency_matrix
    ∧ G.vertices.length ≤ G.adjacency_matrix.length

/-- Well-formedness maintained by every `DynamicGraph` state: the matrix
is square with exactly one row per vertex. -/
def WfD (G : CyGraph) : Prop :=
  SquareMat G.adjacency_matrix
    ∧ G.adjacency_matrix.length = G.vertices.length

/-- Symmetry of the adjacency grid, the representation invariant behind
the undirected-graph symmetry guarantees. -/
def SymMat (M : Mat) : Prop := ∀ i j, cell M i j = cell M j i

/-- Build a graph by a sequence of `add_edge(v1, v2, w)` calls (`add_edge`
is implemented identically by both backends up to the sentinel, so this
fold is the embedding of either backend's build). -/
def buildEdges (G : CyGraph) (ps : List (ℕ × ℕ × ℚ)) : CyGraph :=
  ps.foldl (fun g p => (add_edge g p.1 p.2.1 p.2.2).2) G

/-- The weight recorded for the unordered index pair `{i, j}` by a list of
index triples (used to characterize the matrix built by disjoint
`add_edge` calls). -/
def lookupPair (qs : List (ℕ × ℕ × ℚ)) (i j : ℕ) : Option ℚ :=
  (qs.find? fun q =>
    decide ((q.1 = i ∧ q.2.1 = j) ∨ (q.1 = j ∧ q.2.1 = i))).map (·.2.2)

/-- The canonical (ascending) form of an index triple's endpoint pair. -/
def canon (q : ℕ × ℕ × ℚ) : ℕ × ℕ :=
  if q.1 < q.2.1 then (q.1, q.2.1) else (q.2.1, q.1)

/-- The triple emitted by the undirected `edges` scan for the edge `q`,
which is reached first at its canonical (ascending) cell. -/
def tri (vs : List ℕ) (q : ℕ × ℕ × ℚ) : ℕ × ℕ × ℚ :=
  (vs.getD (canon q).1 0, vs.getD (canon q).2 0, q.2.2)

/-- "Cell `(a, b)` lies strictly before scan position `(r, s)`" in the
row-major order of the `edges` double loop. -/
def scanBefore (r s a b : ℕ) : Prop := a < r ∨ (a = r ∧ b < s)

instance (r s a b : ℕ) : Decidable (scanBefore r s a b) := by
  unfold scanBefore; infer_instance

end Cygraph

namespace Cygraph

/-! ### Helper lemmas: Python list/dict model -/

theorem pyIndex_lt_length {l : List ℕ} {v : ℕ} (h : v ∈ l) :
    pyIndex l v < l.length := by
  induction l with
  | nil => cases h
  | cons x xs ih =>
    by_cases hx : x = v
    · simp [pyIndex, hx]
    · rcases List.mem_cons.mp h with h' | h'
      · exact absurd h'.symm hx
      · simpa [pyIndex, hx] using ih h'

theorem getElem?_pyIndex {l : List ℕ} {v : ℕ} (h : v ∈ l) :
    l[pyIndex l v]? = some v := by
  induction l with
  | nil => cases h
  | cons x xs ih =>
    by_cases hx : x = v
    · simp [pyIndex, hx]
    · rcases List.mem_cons.mp h with h' | h'
      · exact absurd h'.symm hx
      · simpa [pyIndex, hx] using ih h'

theorem getD_pyIndex {l : List ℕ} {v : ℕ} (h : v ∈ l) :
    l.getD (pyIndex l v) 0 = v := by
  rw [List.getD_eq_getElem?_getD, getElem?_pyIndex h]; rfl

theorem pyIndex_inj {l : List ℕ} {a b : ℕ} (ha : a ∈ l) (hb : b ∈ l)
    (h : pyIndex l a = pyIndex l b) : a = b := by
  have h1 := getElem?_pyIndex ha
  have h2 := getElem?_pyIndex hb
  rw [h] at h1
  rw [h1] at h2
  exact Option.some.inj h2

theorem getD_inj_of_nodup {l : List ℕ} (hnd : l.Nodup) {i j : ℕ}
    (hi : i < l.length) (hj : j < l.length)
    (h : l.getD i 0 = l.getD j 0) : i = j := by
  rw [List.getD_eq_getElem?_getD, List.getD_eq_getElem?_getD,
    List.getElem?_eq_getElem hi, List.getElem?_eq_getElem hj] at h
  exact (hnd.getElem_inj_iff.mp h)

theorem pyRemove_length_le (l : List ℕ) (v : ℕ) :
    (pyRemove l v).length ≤ l.length := by
  induction l with
  | nil => simp [pyRemove]
  | cons x xs ih =>
    by_cases hx : x = v
    · simp only [pyRemove, hx, if_true, List.length_cons]; omega
    · simp only [pyRemove, hx, if_false, List.length_cons]; omega

theorem pyRemove_length {l : List ℕ} {v : ℕ} (h : v ∈ l) :
    (pyRemove l v).length + 1 = l.length := by
  induction l with
  | nil => cases h
  | cons x xs ih =>
    by_cases hx : x = v
    · simp [pyRemove, hx]
    · rcases List.mem_cons.mp h with h' | h'
      · exact absurd h'.symm hx
      · have := ih h'
        simp only [pyRemove, hx, if_false, List.length_cons]
        omega

/-! ### Helper lemmas: the adjacency grid -/

theorem length_setCell (M : Mat) (a b : ℕ) (x : Option ℚ) :
    (setCell M a b x).length = M.length := by
  unfold setCell
  cases h : M[a]? with
  | none => rfl
  | some row => simp

theorem squareMat_setCell {M : Mat} (hSq : SquareMat M) (a b : ℕ)
    (x : Option ℚ) : SquareMat (setCell M a b x) := by
  intro row hrow
  rw [length_setCell]
  unfold setCell at hrow
  cases h : M[a]? with
  | none => rw [h] at hrow; exact hSq row hrow
  | some r0 =>
    rw [h] at hrow
    rcases List.mem_or_eq_of_mem_set hrow with h' | h'
    · exact hSq row h'
    · subst h'
      rw [List.length_set]
      obtain ⟨ha', e⟩ := List.getElem?_eq_some.mp h
      exact e ▸ hSq _ (List.getElem_mem ha')

theorem cell_eq_getElem? (M : Mat) (i j : ℕ) :
    cell M i j = (M[i]?.bind fun row => row[j]?).getD none := rfl

theorem cell_of_ge {M : Mat} {i : ℕ} (h : M.length ≤ i) (j : ℕ) :
    cell M i j = none := by
  unfold cell
  rw [List.getElem?_eq_none h]
  simp

theorem cell_setCell {M : Mat} (hSq : SquareMat M) {a b : ℕ}
    (ha : a < M.length) (hb : b < M.length) (x : Option ℚ) (i j : ℕ) :
    cell (setCell M a b x) i j = if a = i ∧ b = j then x else cell M i j := by
  have hrow : M[a]? = some M[a] := List.getElem?_eq_getElem ha
  have hrl : (M[a]).length = M.length := hSq _ (List.getElem_mem ha)
  unfold setCell
  rw [hrow]
  unfold cell
  rw [List.getElem?_set]
  by_cases hia : a = i
  · subst hia
    simp only [if_pos rfl, ha, if_true]
    rw [Option.some_bind]
    rw [List.getElem?_set]
    by_cases hjb : b = j
    · subst hjb
      simp only [if_pos rfl, hrl, hb, if_true, true_and, Option.getD_some]
    · simp only [hjb, if_false, and_false, false_and, true_and]
      rw [hrow, Option.some_bind]
  · rw [if_neg hia, if_neg (fun hc : a = i ∧ b = j => hia hc.1)]

theorem cell_fullNone (n i j : ℕ) : cell (fullNone n) i j = none := by
  unfold cell fullNone
  rcases lt_or_ge i n with hi | hi
  · rw [List.getElem?_replicate, if_pos hi, Option.some_bind]
    rcases lt_or_ge j n with hj | hj
    · rw [List.getElem?_replicate, if_pos hj]; rfl
    · rw [List.getElem?_eq_none (by simpa using hj)]; rfl
  · rw [List.getElem?_eq_none (by simpa using hi)]; rfl

theorem cell_eraseRC (M : Mat) (u i j : ℕ) :
    cell ((M.eraseIdx u).map fun row => row.eraseIdx u) i j
      = cell M (if i < u then i else i + 1) (if j < u then j else j + 1) := by
  unfold cell
  rw [List.getElem?_map, List.getElem?_eraseIdx]
  by_cases hi : i < u
  · simp only [if_pos hi]
    cases hMi : M[i]? with
    | none => rfl
    | some row =>
      simp only [Option.map_some', Option.some_bind]
      rw [List.getElem?_eraseIdx]
      by_cases hj : j < u
      · simp only [if_pos hj]
      · simp only [if_neg hj]
  · simp only [if_neg hi]
    cases hMi : M[i + 1]? with
    | none => rfl
    | some row =>
      simp only [Option.map_some', Option.some_bind]
      rw [List.getElem?_eraseIdx]
      by_cases hj : j < u
      · simp only [if_pos hj]
      · simp only [if_neg hj]

theorem grow_forms_eq (M : Mat) (n : ℕ) :
    (M ++ [List.replicate n none]).map (· ++ [(none : Option ℚ)])
      = (M.map (· ++ [none])) ++ [List.replicate (n + 1) none] := by
  rw [List.map_append]
  simp [List.replicate_succ']

theorem cell_grow {M : Mat} {n : ℕ} (hSq : SquareMat M) (hlen : M.length = n)
    (i j : ℕ) :
    cell ((M.map (· ++ [none])) ++ [List.replicate (n + 1) none]) i j
      = if i < n ∧ j < n then cell M i j else none := by
  unfold cell
  rw [List.getElem?_append]
  simp only [List.length_map, hlen]
  by_cases hi : i < n
  · rw [if_pos hi, List.getElem?_map]
    have hi' : i < M.length := by omega
    have hrl : (M[i]).length = n := by
      rw [← hlen]; exact hSq _ (List.getElem_mem hi')
    rw [List.getElem?_eq_getElem hi', Option.map_some', Option.some_bind,
      Option.some_bind]
    rw [List.getElem?_append]
    by_cases hj : j < n
    · rw [if_pos (by rw [hrl]; exact hj), if_pos ⟨hi, hj⟩]
    · rw [if_neg (by rw [hrl]; exact hj), if_neg (fun hc => hj hc.2)]
      have hx : (([(none : Option ℚ)])[j - (M[i]).length]?).getD none
          = none := by
        cases h : j - (M[i]).length with
        | zero => rfl
        | succ k => rfl
      exact hx
  · rw [if_neg hi, if_neg (fun hc => hi hc.1)]
    cases hin : i - n with
    | zero =>
      simp only [List.getElem?_cons_zero, Option.some_bind]
      rcases lt_or_ge j (n + 1) with hj | hj
      · rw [List.getElem?_replicate, if_pos hj]; rfl
      · rw [List.getElem?_eq_none (by simpa using hj)]; rfl
    | succ k => rfl

/-! ### Characterizations of the operations, by case -/

theorem add_edge_absent1 {G : CyGraph} {v1 : ℕ} (h : v1 ∉ G.vertices)
    (v2 : ℕ) (w : ℚ) : add_edge G v1 v2 w = (some (.notInGraph v1), G) := by
  unfold add_edge get_vertex_int
  simp [h]

theorem add_edge_absent2 {G : CyGraph} {v1 v2 : ℕ} (h1 : v1 ∈ G.vertices)
    (h2 : v2 ∉ G.vertices) (w : ℚ) :
    add_edge G v1 v2 w = (some (.notInGraph v2), G) := by
  unfold add_edge get_vertex_int
  simp [h1, h2]

theorem add_edge_present {G : CyGraph} {v1 v2 : ℕ} (h1 : v1 ∈ G.vertices)
    (h2 : v2 ∈ G.vertices) (w : ℚ) :
    add_edge G v1 v2 w = (none,
      { G with
        edge_attributes := dSet G.edge_attributes (.pair v1 v2) []
        adjacency_matrix :=
          if G.directed then
            setCell G.adjacency_matrix (pyIndex G.vertices v1)
              (pyIndex G.vertices v2) (some w)
          else
            setCell (setCell G.adjacency_matrix (pyIndex G.vertices v1)
              (pyIndex G.vertices v2) (some w)) (pyIndex G.vertices v2)
              (pyIndex G.vertices v1) (some w) }) := by
  unfold add_edge get_vertex_int
  simp [h1, h2]

theorem remove_edge_absent1 {G : CyGraph} {v1 : ℕ} (h : v1 ∉ G.vertices)
    (v2 : ℕ) : remove_edge G v1 v2 = (some (.notInGraph v1), false, G) := by
  unfold remove_edge get_vertex_int
  simp [h]

theorem remove_edge_absent2 {G : CyGraph} {v1 v2 : ℕ} (h1 : v1 ∈ G.vertices)
    (h2 : v2 ∉ G.vertices) :
    remove_edge G v1 v2 = (some (.notInGraph v2), false, G) := by
  unfold remove_edge get_vertex_int
  simp [h1, h2]

theorem remove_edge_no_cell {G : CyGraph} {v1 v2 : ℕ} (h1 : v1 ∈ G.vertices)
    (h2 : v2 ∈ G.vertices)
    (hc : cell G.adjacency_matrix (pyIndex G.vertices v1)
      (pyIndex G.vertices v2) = none) :
    remove_edge G v1 v2 = (none, true, G) := by
  unfold remove_edge get_vertex_int
  simp [h1, h2, hc]

theorem remove_edge_cell {G : CyGraph} {v1 v2 : ℕ} {w : ℚ}
    (h1 : v1 ∈ G.vertices) (h2 : v2 ∈ G.vertices)
    (hc : cell G.adjacency_matrix (pyIndex G.vertices v1)
      (pyIndex G.vertices v2) = some w) :
    remove_edge G v1 v2 = (none, false,
      { G with
        adjacency_matrix :=
          if G.directed then
            setCell G.adjacency_matrix (pyIndex G.vertices v1)
              (pyIndex G.vertices v2) none
          else
            setCell (setCell G.adjacency_matrix (pyIndex G.vertices v1)
              (pyIndex G.vertices v2) none) (pyIndex G.vertices v2)
              (pyIndex G.vertices v1) none }) := by
  unfold remove_edge get_vertex_int
  simp [h1, h2, hc]

theorem add_vertex_static_dup {G : CyGraph} {v : ℕ} (h : v ∈ G.vertices) :
    add_vertex_static G v = (some (.alreadyInGraph v),
      { G with vertex_attributes := dSet G.vertex_attributes v [] }) := by
  unfold add_vertex_static
  simp [h]

theorem add_vertex_static_fresh_empty {G : CyGraph} {v : ℕ}
    (h : v ∉ G.vertices) (h0 : G.vertices.length = 0) :
    add_vertex_static G v = (none,
      { G with
        vertex_attributes := dSet G.vertex_attributes v []
        vertices := G.vertices ++ [v]
        adjacency_matrix := fullNone 1 }) := by
  unfold add_vertex_static
  simp [h, h0]

theorem add_vertex_static_fresh_ok {G : CyGraph} {v : ℕ}
    (h : v ∉ G.vertices) (h0 : G.vertices.length ≠ 0)
    (hdim : (G.adjacency_matrix.head?.map List.length).getD 0
        = G.vertices.length ∧ G.adjacency_matrix.length = G.vertices.length) :
    add_vertex_static G v = (none,
      { G with
        vertex_attributes := dSet G.vertex_attributes v []
        vertices := G.vertices ++ [v]
        adjacency_matrix :=
          (G.adjacency_matrix ++ [List.replicate G.vertices.length none]).map
            (· ++ [none]) }) := by
  unfold add_vertex_static
  simp [h, h0, hdim.1, hdim.2]

theorem add_vertex_static_fresh_mismatch {G : CyGraph} {v : ℕ}
    (h : v ∉ G.vertices) (h0 : G.vertices.length ≠ 0)
    (hdim : ¬((G.adjacency_matrix.head?.map List.length).getD 0
        = G.vertices.length ∧ G.adjacency_matrix.length = G.vertices.length)) :
    add_vertex_static G v = (some .npDimMismatch,
      { G with
        vertex_attributes := dSet G.vertex_attributes v []
        vertices := G.vertices ++ [v] }) := by
  unfold add_vertex_static
  simp only [h, h0, if_false, ite_false]
  rw [if_neg hdim]

theorem add_vertex_dynamic_dup {G : CyGraph} {v : ℕ} (h : v ∈ G.vertices) :
    add_vertex_dynamic G v = (some (.alreadyInGraph v),
      { G with vertex_attributes := dSet G.vertex_attributes v [] }) := by
  unfold add_vertex_dynamic
  simp [h]

theorem add_vertex_dynamic_fresh {G : CyGraph} {v : ℕ} (h : v ∉ G.vertices) :
    add_vertex_dynamic G v = (none,
      { G with
        vertex_attributes := dSet G.vertex_attributes v []
        vertices := G.vertices ++ [v]
        adjacency_matrix :=
          (G.adjacency_matrix.map (· ++ [none]))
            ++ [List.replicate (G.vertices.length + 1) none] }) := by
  unfold add_vertex_dynamic
  simp [h]

theorem remove_vertex_static_absent {G : CyGraph} {v : ℕ}
    (h : v ∉ G.vertices) :
    remove_vertex_static G v = (some (.notInGraph v), G) := by
  unfold remove_vertex_static get_vertex_int
  simp [h]

theorem remove_vertex_static_present {G : CyGraph} {v : ℕ}
    (h : v ∈ G.vertices) :
    remove_vertex_static G v
      = (none, { G with vertices := pyRemove G.vertices v }) := by
  unfold remove_vertex_static get_vertex_int
  simp [h]

theorem remove_vertex_dynamic_absent {G : CyGraph} {v : ℕ}
    (h : v ∉ G.vertices) :
    remove_vertex_dynamic G v = (some (.notInGraph v), G) := by
  unfold remove_vertex_dynamic get_vertex_int
  simp [h]

theorem remove_vertex_dynamic_present {G : CyGraph} {v : ℕ}
    (h : v ∈ G.vertices) :
    remove_vertex_dynamic G v = (none,
      { G with
        vertices := pyRemove G.vertices v
        adjacency_matrix :=
          (G.adjacency_matrix.eraseIdx (pyIndex G.vertices v)).map
            (fun row => row.eraseIdx (pyIndex G.vertices v)) }) := by
  unfold remove_vertex_dynamic get_vertex_int
  simp [h]

theorem set_vertex_attribute_state (G : CyGraph) (vertex key val : ℕ) :
    ((set_vertex_attribute G vertex key val).2).directed = G.directed
    ∧ ((set_vertex_attribute G vertex key val).2).vertices = G.vertices
    ∧ ((set_vertex_attribute G vertex key val).2).adjacency_matrix
      = G.adjacency_matrix
    ∧ ((set_vertex_attribute G vertex key val).2).edge_attributes
      = G.edge_attributes := by
  unfold set_vertex_attribute
  cases dGet G.vertex_attributes vertex <;> simp

theorem set_edge_attribute_state (G : CyGraph) (e : ℕ × ℕ) (key val : ℕ) :
    ((set_edge_attribute G e key val).2).directed = G.directed
    ∧ ((set_edge_attribute G e key val).2).vertices = G.vertices
    ∧ ((set_edge_attribute G e key val).2).adjacency_matrix
      = G.adjacency_matrix
    ∧ ((set_edge_attribute G e key val).2).vertex_attributes
      = G.vertex_attributes := by
  unfold set_edge_attribute
  cases dGet G.edge_attributes (.pair e.1 e.2) with
  | some m => simp
  | none =>
    by_cases hd : G.directed
    · simp [hd]
    · simp only [hd, if_false]
      cases dGet G.edge_attributes (.pair e.2 e.1) <;> simp [hd]

/-! ### Invariants of the reachable states -/

theorem squareMat_fullNone (n : ℕ) : SquareMat (fullNone n) := by
  intro row hrow
  unfold fullNone at *
  rw [List.eq_of_mem_replicate hrow]
  simp

theorem wfS_init (d : Bool) (vs : List ℕ) : WfS (init d vs) := by
  refine ⟨squareMat_fullNone _, ?_⟩
  show vs.length ≤ (fullNone vs.length).length
  simp [fullNone]

theorem wfD_init (d : Bool) (vs : List ℕ) : WfD (init d vs) := by
  refine ⟨squareMat_fullNone _, ?_⟩
  show (fullNone vs.length).length = vs.length
  simp [fullNone]

theorem symMat_init (d : Bool) (vs : List ℕ) :
    SymMat (init d vs).adjacency_matrix := by
  intro i j
  show cell (fullNone vs.length) i j = cell (fullNone vs.length) j i
  rw [cell_fullNone, cell_fullNone]

/-- The column count used by the `np.append` compatibility check equals the
side length on a square nonempty matrix. -/
theorem head_length_of_square {M : Mat} (hSq : SquareMat M)
    (h0 : M.length ≠ 0) :
    (M.head?.map List.length).getD 0 = M.length := by
  cases M with
  | nil => exact absurd rfl h0
  | cons r rest =>
    simpa using hSq r (List.mem_cons_self r rest)

theorem squareMat_grow {M : Mat} {n : ℕ} (hSq : SquareMat M)
    (hlen : M.length = n) :
    SquareMat ((M ++ [List.replicate n none]).map (· ++ [(none : Option ℚ)])) := by
  intro row hrow
  rw [List.mem_map] at hrow
  obtain ⟨r, hr, rfl⟩ := hrow
  simp only [List.length_map, List.length_append, List.length_replicate,
    List.length_cons, List.length_nil, List.length_append]
  rcases List.mem_append.mp hr with h | h
  · simp [hSq r h, hlen]
  · simp only [List.mem_singleton] at h
    subst h
    simp [hlen]

theorem wfS_step {G : CyGraph} (h : WfS G) (op : Op) :
    WfS (stepStatic G op) := by
  obtain ⟨hSq, hle⟩ := h
  cases op with
  | addVertex v =>
    show WfS (add_vertex_static G v).2
    by_cases hv : v ∈ G.vertices
    · rw [add_vertex_static_dup hv]
      exact ⟨hSq, hle⟩
    · by_cases h0 : G.vertices.length = 0
      · rw [add_vertex_static_fresh_empty hv h0]
        refine ⟨squareMat_fullNone 1, ?_⟩
        show (G.vertices ++ [v]).length ≤ (fullNone 1).length
        simp [h0, fullNone]
      · by_cases hdim : (G.adjacency_matrix.head?.map List.length).getD 0
            = G.vertices.length ∧ G.adjacency_matrix.length = G.vertices.length
        · rw [add_vertex_static_fresh_ok hv h0 hdim]
          refine ⟨squareMat_grow hSq hdim.2, ?_⟩
          simp [hdim.2]
        · rw [add_vertex_static_fresh_mismatch hv h0 hdim]
          refine ⟨hSq, ?_⟩
          show (G.vertices ++ [v]).length ≤ G.adjacency_matrix.length
          have hne : G.adjacency_matrix.length ≠ G.vertices.length := by
            intro he
            exact hdim ⟨by rw [head_length_of_square hSq (by omega), he], he⟩
          simp only [List.length_append, List.length_cons, List.length_nil]
          omega
  | removeVertex v =>
    show WfS (remove_vertex_static G v).2
    by_cases hv : v ∈ G.vertices
    · rw [remove_vertex_static_present hv]
      exact ⟨hSq, le_trans (pyRemove_length_le _ _) hle⟩
    · rw [remove_vertex_static_absent hv]
      exact ⟨hSq, hle⟩
  | addEdge v1 v2 w =>
    show WfS (add_edge G v1 v2 w).2
    by_cases h1 : v1 ∈ G.vertices
    · by_cases h2 : v2 ∈ G.vertices
      · rw [add_edge_present h1 h2]
        refine ⟨?_, ?_⟩
        · dsimp only
          split
          · exact squareMat_setCell hSq _ _ _
          · exact squareMat_setCell (squareMat_setCell hSq _ _ _) _ _ _
        · dsimp only
          split <;> simp [length_setCell, hle]
      · rw [add_edge_absent2 h1 h2]; exact ⟨hSq, hle⟩
    · rw [add_edge_absent1 h1]; exact ⟨hSq, hle⟩
  | removeEdge v1 v2 =>
    show WfS (remove_edge G v1 v2).2.2
    by_cases h1 : v1 ∈ G.vertices
    · by_cases h2 : v2 ∈ G.vertices
      · cases hc : cell G.adjacency_matrix (pyIndex G.vertices v1)
            (pyIndex G.vertices v2) with
        | none => rw [remove_edge_no_cell h1 h2 hc]; exact ⟨hSq, hle⟩
        | some w =>
          rw [remove_edge_cell h1 h2 hc]
          refine ⟨?_, ?_⟩
          · dsimp only
            split
            · exact squareMat_setCell hSq _ _ _
            · exact squareMat_setCell (squareMat_setCell hSq _ _ _) _ _ _
          · dsimp only
            split <;> simp [length_setCell, hle]
      · rw [remove_edge_absent2 h1 h2]; exact ⟨hSq, hle⟩
    · rw [remove_edge_absent1 h1]; exact ⟨hSq, hle⟩
  | setVertexAttr v k x =>
    obtain ⟨-, h2, h3, -⟩ := set_vertex_attribute_state G v k x
    show WfS (set_vertex_attribute G v k x).2
    unfold WfS
    rw [h2, h3]
    exact ⟨hSq, hle⟩
  | setEdgeAttr a b k x =>
    obtain ⟨-, h2, h3, -⟩ := set_edge_attribute_state G (a, b) k x
    show WfS (set_edge_attribute G (a, b) k x).2
    unfold WfS
    rw [h2, h3]
    exact ⟨hSq, hle⟩

theorem wfD_step {G : CyGraph} (h : WfD G) (op : Op) :
    WfD (stepDynamic G op) := by
  obtain ⟨hSq, heq⟩ := h
  cases op with
  | addVertex v =>
    show WfD (add_vertex_dynamic G v).2
    by_cases hv : v ∈ G.vertices
    · rw [add_vertex_dynamic_dup hv]
      exact ⟨hSq, heq⟩
    · rw [add_vertex_dynamic_fresh hv]
      constructor
      · intro row hrow
        dsimp only at *
        rcases List.mem_append.mp hrow with h' | h'
        · rw [List.mem_map] at h'
          obtain ⟨r, hr, rfl⟩ := h'
          simp [hSq r hr, heq]
        · simp only [List.mem_singleton] at h'
          subst h'
          simp [heq]
      · dsimp only
        simp [heq]
  | removeVertex v =>
    show WfD (remove_vertex_dynamic G v).2
    by_cases hv : v ∈ G.vertices
    · rw [remove_vertex_dynamic_present hv]
      have hu : pyIndex G.vertices v < G.adjacency_matrix.length := by
        rw [heq]; exact pyIndex_lt_length hv
      constructor
      · intro row hrow
        dsimp only at *
        rw [List.mem_map] at hrow
        obtain ⟨r, hr, rfl⟩ := hrow
        have hrmem : r ∈ G.adjacency_matrix := List.mem_of_mem_eraseIdx hr
        have : r.length = G.adjacency_matrix.length := hSq r hrmem
        simp only [List.length_map, List.length_eraseIdx]
        simp [hu, this]
      · dsimp only
        rw [List.length_map, List.length_eraseIdx, if_pos hu]
        have h5 := pyRemove_length hv
        omega
    · rw [remove_vertex_dynamic_absent hv]
      exact ⟨hSq, heq⟩
  | addEdge v1 v2 w =>
    show WfD (add_edge G v1 v2 w).2
    by_cases h1 : v1 ∈ G.vertices
    · by_cases h2 : v2 ∈ G.vertices
      · rw [add_edge_present h1 h2]
        refine ⟨?_, ?_⟩
        · dsimp only
          split
          · exact squareMat_setCell hSq _ _ _
          · exact squareMat_setCell (squareMat_setCell hSq _ _ _) _ _ _
        · dsimp only
          split <;> simp [length_setCell, heq]
      · rw [add_edge_absent2 h1 h2]; exact ⟨hSq, heq⟩
    · rw [add_edge_absent1 h1]; exact ⟨hSq, heq⟩
  | removeEdge v1 v2 =>
    show WfD (remove_edge G v1 v2).2.2
    by_cases h1 : v1 ∈ G.vertices
    · by_cases h2 : v2 ∈ G.vertices
      · cases hc : cell G.adjacency_matrix (pyIndex G.vertices v1)
            (pyIndex G.vertices v2) with
        | none => rw [remove_edge_no_cell h1 h2 hc]; exact ⟨hSq, heq⟩
        | some w =>
          rw [remove_edge_cell h1 h2 hc]
          refine ⟨?_, ?_⟩
          · dsimp only
            split
            · exact squareMat_setCell hSq _ _ _
            · exact squareMat_setCell (squareMat_setCell hSq _ _ _) _ _ _
          · dsimp only
            split <;> simp [length_setCell, heq]
      · rw [remove_edge_absent2 h1 h2]; exact ⟨hSq, heq⟩
    · rw [remove_edge_absent1 h1]; exact ⟨hSq, heq⟩
  | setVertexAttr v k x =>
    obtain ⟨-, h2, h3, -⟩ := set_vertex_attribute_state G v k x
    show WfD (set_vertex_attribute G v k x).2
    unfold WfD
    rw [h2, h3]
    exact ⟨hSq, heq⟩
  | setEdgeAttr a b k x =>
    obtain ⟨-, h2, h3, -⟩ := set_edge_attribute_state G (a, b) k x
    show WfD (set_edge_attribute G (a, b) k x).2
    unfold WfD
    rw [h2, h3]
    exact ⟨hSq, heq⟩

theorem directed_stepStatic (G : CyGraph) (op : Op) :
    (stepStatic G op).directed = G.directed := by
  cases op with
  | addVertex v =>
    show (add_vertex_static G v).2.directed = G.directed
    by_cases hv : v ∈ G.vertices
    · rw [add_vertex_static_dup hv]
    · by_cases h0 : G.vertices.length = 0
      · rw [add_vertex_static_fresh_empty hv h0]
      · by_cases hdim : (G.adjacency_matrix.head?.map List.length).getD 0
            = G.vertices.length ∧ G.adjacency_matrix.length = G.vertices.length
        · rw [add_vertex_static_fresh_ok hv h0 hdim]
        · rw [add_vertex_static_fresh_mismatch hv h0 hdim]
  | removeVertex v =>
    show (remove_vertex_static G v).2.directed = G.directed
    by_cases hv : v ∈ G.vertices
    · rw [remove_vertex_static_present hv]
    · rw [remove_vertex_static_absent hv]
  | addEdge v1 v2 w =>
    show (add_edge G v1 v2 w).2.directed = G.directed
    by_cases h1 : v1 ∈ G.vertices
    · by_cases h2 : v2 ∈ G.vertices
      · rw [add_edge_present h1 h2]
      · rw [add_edge_absent2 h1 h2]
    · rw [add_edge_absent1 h1]
  | removeEdge v1 v2 =>
    show (remove_edge G v1 v2).2.2.directed = G.directed
    by_cases h1 : v1 ∈ G.vertices
    · by_cases h2 : v2 ∈ G.vertices
      · cases hc : cell G.adjacency_matrix (pyIndex G.vertices v1)
            (pyIndex G.vertices v2) with
        | none => rw [remove_edge_no_cell h1 h2 hc]
        | some w => rw [remove_edge_cell h1 h2 hc]
      · rw [remove_edge_absent2 h1 h2]
    · rw [remove_edge_absent1 h1]
  | setVertexAttr v k x => exact (set_vertex_attribute_state G v k x).1
  | setEdgeAttr a b k x => exact (set_edge_attribute_state G (a, b) k x).1

theorem directed_stepDynamic (G : CyGraph) (op : Op) :
    (stepDynamic G op).directed = G.directed := by
  cases op with
  | addVertex v =>
    show (add_vertex_dynamic G v).2.directed = G.directed
    by_cases hv : v ∈ G.vertices
    · rw [add_vertex_dynamic_dup hv]
    · rw [add_vertex_dynamic_fresh hv]
  | removeVertex v =>
    show (remove_vertex_dynamic G v).2.directed = G.directed
    by_cases hv : v ∈ G.vertices
    · rw [remove_vertex_dynamic_present hv]
    · rw [remove_vertex_dynamic_absent hv]
  | addEdge v1 v2 w =>
    show (add_edge G v1 v2 w).2.directed = G.directed
    by_cases h1 : v1 ∈ G.vertices
    · by_cases h2 : v2 ∈ G.vertices
      · rw [add_edge_present h1 h2]
      · rw [add_edge_absent2 h1 h2]
    · rw [add_edge_absent1 h1]
  | removeEdge v1 v2 =>
    show (remove_edge G v1 v2).2.2.directed = G.directed
    by_cases h1 : v1 ∈ G.vertices
    · by_cases h2 : v2 ∈ G.vertices
      · cases hc : cell G.adjacency_matrix (pyIndex G.vertices v1)
            (pyIndex G.vertices v2) with
        | none => rw [remove_edge_no_cell h1 h2 hc]
        | some w => rw [remove_edge_cell h1 h2 hc]
      · rw [remove_edge_absent2 h1 h2]
    · rw [remove_edge_absent1 h1]
  | setVertexAttr v k x => exact (set_vertex_attribute_state G v k x).1
  | setEdgeAttr a b k x => exact (set_edge_attribute_state G (a, b) k x).1

/-- Setting the two mirror cells of a symmetric square grid to the same
value keeps it symmetric. -/
theorem symMat_setCell_pair {M : Mat} (hSq : SquareMat M) {u v : ℕ}
    (hu : u < M.length) (hv : v < M.length) (x : Option ℚ)
    (hs : SymMat M) : SymMat (setCell (setCell M u v x) v u x) := by
  intro i j
  have hSq' := squareMat_setCell hSq u v x
  have hlen : (setCell M u v x).length = M.length := length_setCell M u v x
  rw [cell_setCell hSq' (by rw [hlen]; exact hv) (by rw [hlen]; exact hu) x i j,
    cell_setCell hSq' (by rw [hlen]; exact hv) (by rw [hlen]; exact hu) x j i,
    cell_setCell hSq hu hv x i j, cell_setCell hSq hu hv x j i]
  by_cases hC1 : v = i ∧ u = j
  · have h2' : u = j ∧ v = i := ⟨hC1.2, hC1.1⟩
    simp [hC1, h2']
  · by_cases hC2 : u = i ∧ v = j
    · have hC1' : v = j ∧ u = i := ⟨hC2.2, hC2.1⟩
      simp [hC1, hC2, hC1']
    · have h1' : ¬(v = j ∧ u = i) := fun hc => hC2 ⟨hc.2, hc.1⟩
      have h2' : ¬(u = j ∧ v = i) := fun hc => hC1 ⟨hc.2, hc.1⟩
      simp [hC1, hC2, h1', h2', hs i j]

theorem symMat_stepStatic {G : CyGraph} (hwf : WfS G)
    (hd : G.directed = false) (hs : SymMat G.adjacency_matrix) (op : Op) :
    SymMat (stepStatic G op).adjacency_matrix := by
  obtain ⟨hSq, hle⟩ := hwf
  cases op with
  | addVertex v =>
    show SymMat (add_vertex_static G v).2.adjacency_matrix
    by_cases hv : v ∈ G.vertices
    · rw [add_vertex_static_dup hv]; exact hs
    · by_cases h0 : G.vertices.length = 0
      · rw [add_vertex_static_fresh_empty hv h0]
        intro i j
        dsimp only
        rw [cell_fullNone, cell_fullNone]
      · by_cases hdim : (G.adjacency_matrix.head?.map List.length).getD 0
            = G.vertices.length ∧ G.adjacency_matrix.length = G.vertices.length
        · rw [add_vertex_static_fresh_ok hv h0 hdim]
          intro i j
          dsimp only
          rw [grow_forms_eq, cell_grow hSq hdim.2, cell_grow hSq hdim.2]
          by_cases hij : i < G.vertices.length ∧ j < G.vertices.length
          · have hji : j < G.vertices.length ∧ i < G.vertices.length :=
              ⟨hij.2, hij.1⟩
            simp [hij, hji, hs i j]
          · have hji : ¬(j < G.vertices.length ∧ i < G.vertices.length) :=
              fun hc => hij ⟨hc.2, hc.1⟩
            simp [hij, hji]
        · rw [add_vertex_static_fresh_mismatch hv h0 hdim]; exact hs
  | removeVertex v =>
    show SymMat (remove_vertex_static G v).2.adjacency_matrix
    by_cases hv : v ∈ G.vertices
    · rw [remove_vertex_static_present hv]; exact hs
    · rw [remove_vertex_static_absent hv]; exact hs
  | addEdge v1 v2 w =>
    show SymMat (add_edge G v1 v2 w).2.adjacency_matrix
    by_cases h1 : v1 ∈ G.vertices
    · by_cases h2 : v2 ∈ G.vertices
      · rw [add_edge_present h1 h2]
        dsimp only
        rw [hd]
        simp only [Bool.false_eq_true, if_false]
        exact symMat_setCell_pair hSq
          (lt_of_lt_of_le (pyIndex_lt_length h1) hle)
          (lt_of_lt_of_le (pyIndex_lt_length h2) hle) _ hs
      · rw [add_edge_absent2 h1 h2]; exact hs
    · rw [add_edge_absent1 h1]; exact hs
  | removeEdge v1 v2 =>
    show SymMat (remove_edge G v1 v2).2.2.adjacency_matrix
    by_cases h1 : v1 ∈ G.vertices
    · by_cases h2 : v2 ∈ G.vertices
      · cases hc : cell G.adjacency_matrix (pyIndex G.vertices v1)
            (pyIndex G.vertices v2) with
        | none => rw [remove_edge_no_cell h1 h2 hc]; exact hs
        | some w =>
          rw [remove_edge_cell h1 h2 hc]
          dsimp only
          rw [hd]
          simp only [Bool.false_eq_true, if_false]
          exact symMat_setCell_pair hSq
            (lt_of_lt_of_le (pyIndex_lt_length h1) hle)
            (lt_of_lt_of_le (pyIndex_lt_length h2) hle) _ hs
      · rw [remove_edge_absent2 h1 h2]; exact hs
    · rw [remove_edge_absent1 h1]; exact hs
  | setVertexAttr v k x =>
    show SymMat (set_vertex_attribute G v k x).2.adjacency_matrix
    rw [(set_vertex_attribute_state G v k x).2.2.1]; exact hs
  | setEdgeAttr a b k x =>
    show SymMat (set_edge_attribute G (a, b) k x).2.adjacency_matrix
    rw [(set_edge_attribute_state G (a, b) k x).2.2.1]; exact hs

theorem symMat_stepDynamic {G : CyGraph} (hwf : WfD G)
    (hd : G.directed = false) (hs : SymMat G.adjacency_matrix) (op : Op) :
    SymMat (stepDynamic G op).adjacency_matrix := by
  obtain ⟨hSq, heq⟩ := hwf
  have hle : G.vertices.length ≤ G.adjacency_matrix.length := le_of_eq heq.symm
  cases op with
  | addVertex v =>
    show SymMat (add_vertex_dynamic G v).2.adjacency_matrix
    by_cases hv : v ∈ G.vertices
    · rw [add_vertex_dynamic_dup hv]; exact hs
    · rw [add_vertex_dynamic_fresh hv]
      intro i j
      dsimp only
      rw [cell_grow hSq heq, cell_grow hSq heq]
      by_cases hij : i < G.vertices.length ∧ j < G.vertices.length
      · have hji : j < G.vertices.length ∧ i < G.vertices.length :=
          ⟨hij.2, hij.1⟩
        simp [hij, hji, hs i j]
      · have hji : ¬(j < G.vertices.length ∧ i < G.vertices.length) :=
          fun hc => hij ⟨hc.2, hc.1⟩
        simp [hij, hji]
  | removeVertex v =>
    show SymMat (remove_vertex_dynamic G v).2.adjacency_matrix
    by_cases hv : v ∈ G.vertices
    · rw [remove_vertex_dynamic_present hv]
      intro i j
      dsimp only
      rw [cell_eraseRC, cell_eraseRC]
      exact hs _ _
    · rw [remove_vertex_dynamic_absent hv]; exact hs
  | addEdge v1 v2 w =>
    show SymMat (add_edge G v1 v2 w).2.adjacency_matrix
    by_cases h1 : v1 ∈ G.vertices
    · by_cases h2 : v2 ∈ G.vertices
      · rw [add_edge_present h1 h2]
        dsimp only
        rw [hd]
        simp only [Bool.false_eq_true, if_false]
        exact symMat_setCell_pair hSq
          (lt_of_lt_of_le (pyIndex_lt_length h1) hle)
          (lt_of_lt_of_le (pyIndex_lt_length h2) hle) _ hs
      · rw [add_edge_absent2 h1 h2]; exact hs
    · rw [add_edge_absent1 h1]; exact hs
  | removeEdge v1 v2 =>
    show SymMat (remove_edge G v1 v2).2.2.adjacency_matrix
    by_cases h1 : v1 ∈ G.vertices
    · by_cases h2 : v2 ∈ G.vertices
      · cases hc : cell G.adjacency_matrix (pyIndex G.vertices v1)
            (pyIndex G.vertices v2) with
        | none => rw [remove_edge_no_cell h1 h2 hc]; exact hs
        | some w =>
          rw [remove_edge_cell h1 h2 hc]
          dsimp only
          rw [hd]
          simp only [Bool.false_eq_true, if_false]
          exact symMat_setCell_pair hSq
            (lt_of_lt_of_le (pyIndex_lt_length h1) hle)
            (lt_of_lt_of_le (pyIndex_lt_length h2) hle) _ hs
      · rw [remove_edge_absent2 h1 h2]; exact hs
    · rw [remove_edge_absent1 h1]; exact hs
  | setVertexAttr v k x =>
    show SymMat (set_vertex_attribute G v k x).2.adjacency_matrix
    rw [(set_vertex_attribute_state G v k x).2.2.1]; exact hs
  | setEdgeAttr a b k x =>
    show SymMat (set_edge_attribute G (a, b) k x).2.adjacency_matrix
    rw [(set_edge_attribute_state G (a, b) k x).2.2.1]; exact hs

theorem wfS_run {G : CyGraph} (h : WfS G) (ops : List Op) :
    WfS (runStatic G ops) := by
  induction ops generalizing G with
  | nil => exact h
  | cons op ops ih => exact ih (wfS_step h op)

theorem wfD_run {G : CyGraph} (h : WfD G) (ops : List Op) :
    WfD (runDynamic G ops) := by
  induction ops generalizing G with
  | nil => exact h
  | cons op ops ih => exact ih (wfD_step h op)

theorem directed_runStatic (G : CyGraph) (ops : List Op) :
    (runStatic G ops).directed = G.directed := by
  induction ops generalizing G with
  | nil => rfl
  | cons op ops ih =>
    show (runStatic (stepStatic G op) ops).directed = G.directed
    rw [ih, directed_stepStatic]

theorem directed_runDynamic (G : CyGraph) (ops : List Op) :
    (runDynamic G ops).directed = G.directed := by
  induction ops generalizing G with
  | nil => rfl
  | cons op ops ih =>
    show (runDynamic (stepDynamic G op) ops).directed = G.directed
    rw [ih, directed_stepDynamic]

theorem symMat_runStatic {G : CyGraph} (hwf : WfS G)
    (hd : G.directed = false) (hs : SymMat G.adjacency_matrix)
    (ops : List Op) : SymMat (runStatic G ops).adjacency_matrix := by
  induction ops generalizing G with
  | nil => exact hs
  | cons op ops ih =>
    exact ih (wfS_step hwf op)
      ((directed_stepStatic G op).trans hd) (symMat_stepStatic hwf hd hs op)

theorem symMat_runDynamic {G : CyGraph} (hwf : WfD G)
    (hd : G.directed = false) (hs : SymMat G.adjacency_matrix)
    (ops : List Op) : SymMat (runDynamic G ops).adjacency_matrix := by
  induction ops generalizing G with
  | nil => exact hs
  | cons op ops ih =>
    exact ih (wfD_step hwf op)
      ((directed_stepDynamic G op).trans hd) (symMat_stepDynamic hwf hd hs op)

/-! ### Symmetry and weight-fidelity consequences -/

theorem has_edge_symm_of_symMat {G : CyGraph}
    (hs : SymMat G.adjacency_matrix) (u v : ℕ) :
    has_edge G u v = has_edge G v u := by
  unfold has_edge
  by_cases h1 : u ∈ G.vertices
  · by_cases h2 : v ∈ G.vertices
    · rw [if_pos ⟨h1, h2⟩, if_pos ⟨h2, h1⟩, hs]
    · rw [if_neg (fun hc => h2 hc.2), if_neg (fun hc => h2 hc.1)]
  · rw [if_neg (fun hc => h1 hc.1), if_neg (fun hc => h1 hc.2)]

theorem get_edge_weight_absent1 {G : CyGraph} {v1 : ℕ}
    (h : v1 ∉ G.vertices) (v2 : ℕ) :
    get_edge_weight G v1 v2 = .error (.notInGraph v1) := by
  unfold get_edge_weight get_vertex_int
  simp [h]

theorem get_edge_weight_absent2 {G : CyGraph} {v1 v2 : ℕ}
    (h1 : v1 ∈ G.vertices) (h2 : v2 ∉ G.vertices) :
    get_edge_weight G v1 v2 = .error (.notInGraph v2) := by
  unfold get_edge_weight get_vertex_int
  simp [h1, h2]

theorem get_edge_weight_present {G : CyGraph} {v1 v2 : ℕ}
    (h1 : v1 ∈ G.vertices) (h2 : v2 ∈ G.vertices) :
    get_edge_weight G v1 v2
      = (match cell G.adjacency_matrix (pyIndex G.vertices v1)
            (pyIndex G.vertices v2) with
         | some w => .ok w
         | none => .error (.noEdge v1 v2)) := by
  unfold get_edge_weight get_vertex_int
  simp [h1, h2]

theorem get_edge_weight_symm_of_symMat {G : CyGraph}
    (hs : SymMat G.adjacency_matrix) (u v : ℕ) (w : ℚ)
    (h : get_edge_weight G u v = .ok w) :
    get_edge_weight G v u = .ok w := by
  by_cases h1 : u ∈ G.vertices
  · by_cases h2 : v ∈ G.vertices
    · rw [get_edge_weight_present h1 h2] at h
      rw [get_edge_weight_present h2 h1]
      cases hc : cell G.adjacency_matrix (pyIndex G.vertices u)
          (pyIndex G.vertices v) with
      | none => rw [hc] at h; cases h
      | some w' =>
        rw [hc] at h
        rw [hs (pyIndex G.vertices v) (pyIndex G.vertices u), hc]
        exact h
    · rw [get_edge_weight_absent2 h1 h2] at h
      cases h
  · rw [get_edge_weight_absent1 h1] at h
    cases h

theorem get_edge_weight_of_cell {G : CyGraph} {v1 v2 : ℕ} {w : ℚ}
    (h1 : v1 ∈ G.vertices) (h2 : v2 ∈ G.vertices)
    (hc : cell G.adjacency_matrix (pyIndex G.vertices v1)
      (pyIndex G.vertices v2) = some w) :
    get_edge_weight G v1 v2 = .ok w := by
  rw [get_edge_weight_present h1 h2, hc]

theorem get_edge_weight_add_edge {G : CyGraph}
    (hSq : SquareMat G.adjacency_matrix)
    (hle : G.vertices.length ≤ G.adjacency_matrix.length)
    {v1 v2 : ℕ} (h1 : v1 ∈ G.vertices) (h2 : v2 ∈ G.vertices) (w : ℚ) :
    get_edge_weight (add_edge G v1 v2 w).2 v1 v2 = .ok w
    ∧ (G.directed = false →
        get_edge_weight (add_edge G v1 v2 w).2 v2 v1 = .ok w) := by
  rw [add_edge_present h1 h2]
  have hu : pyIndex G.vertices v1 < G.adjacency_matrix.length :=
    lt_of_lt_of_le (pyIndex_lt_length h1) hle
  have hv : pyIndex G.vertices v2 < G.adjacency_matrix.length :=
    lt_of_lt_of_le (pyIndex_lt_length h2) hle
  have hSq1 := squareMat_setCell hSq (pyIndex G.vertices v1)
    (pyIndex G.vertices v2) (some w)
  have hlen1 := length_setCell G.adjacency_matrix (pyIndex G.vertices v1)
    (pyIndex G.vertices v2) (some w)
  by_cases hd : G.directed = true
  · have hc : cell (setCell G.adjacency_matrix (pyIndex G.vertices v1)
        (pyIndex G.vertices v2) (some w)) (pyIndex G.vertices v1)
        (pyIndex G.vertices v2) = some w := by
      rw [cell_setCell hSq hu hv]
      simp
    constructor
    · exact get_edge_weight_of_cell h1 h2
        (by dsimp only; rw [if_pos hd]; exact hc)
    · intro hdf
      rw [hdf] at hd
      cases hd
  · have hcuv : cell (setCell (setCell G.adjacency_matrix
        (pyIndex G.vertices v1) (pyIndex G.vertices v2) (some w))
        (pyIndex G.vertices v2) (pyIndex G.vertices v1) (some w))
        (pyIndex G.vertices v1) (pyIndex G.vertices v2) = some w := by
      rw [cell_setCell hSq1 (by rw [hlen1]; exact hv) (by rw [hlen1]; exact hu)]
      by_cases he : pyIndex G.vertices v2 = pyIndex G.vertices v1
      · rw [if_pos ⟨he, he.symm⟩]
      · rw [if_neg (fun hx => he hx.1), cell_setCell hSq hu hv]
        simp
    have hcvu : cell (setCell (setCell G.adjacency_matrix
        (pyIndex G.vertices v1) (pyIndex G.vertices v2) (some w))
        (pyIndex G.vertices v2) (pyIndex G.vertices v1) (some w))
        (pyIndex G.vertices v2) (pyIndex G.vertices v1) = some w := by
      rw [cell_setCell hSq1 (by rw [hlen1]; exact hv) (by rw [hlen1]; exact hu)]
      simp
    constructor
    · exact get_edge_weight_of_cell h1 h2
        (by dsimp only; rw [if_neg hd]; exact hcuv)
    · intro _
      exact get_edge_weight_of_cell h2 h1
        (by dsimp only; rw [if_neg hd]; exact hcvu)

/-! ### Claim theorems: concrete evidence for the code bugs -/

/-- **C1** (code-bug evidence).  The claim says `remove_vertex(v)` removes
`v`'s entry from `vertex_attributes`, removes every incident edge from
the adjacency representation and from `edge_attributes`, and shrinks the
adjacency storage.  Evaluating the code on a two-vertex undirected graph
with the single edge `(0, 1)`: after `remove_vertex(0)` both backends
still hold vertex `0`'s attribute entry and the stale
`edge_attributes[(0, 1)]` entry, and the `StaticGraph` adjacency matrix
is still the full 2×2 matrix with the edge's weights in place (the
`np.delete` results are discarded). -/
theorem C1_remove_vertex_stale_state :
    (runStatic (init false [0, 1])
        [.addEdge 0 1 1, .removeVertex 0]).vertices = [1]
    ∧ (runStatic (init false [0, 1])
        [.addEdge 0 1 1, .removeVertex 0]).vertex_attributes
        = [(0, []), (1, [])]
    ∧ (runStatic (init false [0, 1])
        [.addEdge 0 1 1, .removeVertex 0]).edge_attributes
        = [(.pair 0 1, [])]
    ∧ (runStatic (init false [0, 1])
        [.addEdge 0 1 1, .removeVertex 0]).adjacency_matrix
        = [[none, some 1], [some 1, none]]
    ∧ (runDynamic (init false [0, 1])
        [.addEdge 0 1 1, .removeVertex 0]).vertex_attributes
        = [(0, []), (1, [])]
    ∧ (runDynamic (init false [0, 1])
        [.addEdge 0 1 1, .removeVertex 0]).edge_attributes
        = [(.pair 0 1, [])] := by decide

/-- **C2** (code-bug evidence).  The claim says cloning yields a graph
equal in content to the source.  On a `StaticGraph` with one edge of
weight 5/2, `__copy__` raises `KeyError` (it subscripts
`_edge_attributes` with the `(v1, v2, weight)` 3-tuple from `edges`),
and the constructor-from-source path (`StaticGraph(graph=g)`) replays
edges with `add_edge`'s default weight, so the clone records weight `1`
instead of `5/2`. -/
theorem C2_copy_raises_and_ctor_drops_weight :
    copyGraph (runStatic (init false [0, 1]) [.addEdge 0 1 (5 / 2)])
      = .error .keyError
    ∧ get_edge_weight
        (staticFromGraph
          (runStatic (init false [0, 1]) [.addEdge 0 1 (5 / 2)])) 0 1
      = .ok 1 := ⟨rfl, rfl⟩

/-- **C3** (code-bug evidence).  The claim says the key set of
`vertex_attributes` always equals the vertex set.  After the public
operation `remove_vertex(0)` on the one-vertex graph `[0]`, both
backends have an empty vertex list but `vertex_attributes` still has the
key `0`. -/
theorem C3_vertex_attribute_keys_diverge :
    (runStatic (init false [0]) [.removeVertex 0]).vertices = []
    ∧ dKeys (runStatic (init false [0])
        [.removeVertex 0]).vertex_attributes = [0]
    ∧ (runDynamic (init false [0]) [.removeVertex 0]).vertices = []
    ∧ dKeys (runDynamic (init false [0])
        [.removeVertex 0]).vertex_attributes = [0] := by decide

/-- **C7** (code-bug evidence).  The claim says
`add_vertex(v); remove_vertex(v)` restores the state exactly.  Starting
from the empty graph, the round trip on vertex `0` leaves a stale
`vertex_attributes` entry in both backends, and additionally leaves the
grown 1×1 matrix in the `StaticGraph`. -/
theorem C7_add_remove_not_round_trip :
    runDynamic (init false []) [.addVertex 0, .removeVertex 0]
      ≠ init false []
    ∧ (runDynamic (init false [])
        [.addVertex 0, .removeVertex 0]).vertex_attributes = [(0, [])]
    ∧ (init false []).vertex_attributes = []
    ∧ (runStatic (init false [])
        [.addVertex 0, .removeVertex 0]).adjacency_matrix = [[none]]
    ∧ (init false []).adjacency_matrix = [] := by decide

/-- **C10** (code-bug evidence).  The claim says the two backends answer
every query identically under identical operation sequences.  After
`add_edge(1, 2); remove_vertex(0)` on the undirected graph `[0, 1, 2]`,
`has_edge(1, 2)` is `False` on the `StaticGraph` (its matrix was never
shrunk, so the surviving vertices' positions no longer match the matrix)
but `True` on the `DynamicGraph`. -/
theorem C10_backends_diverge_after_remove_vertex :
    has_edge (runStatic (init false [0, 1, 2])
      [.addEdge 1 2 1, .removeVertex 0]) 1 2 = false
    ∧ has_edge (runDynamic (init false [0, 1, 2])
      [.addEdge 1 2 1, .removeVertex 0]) 1 2 = true := by decide

/-- **C4** (confirmed).  For every undirected graph of either backend
reachable by any sequence of public operations and any two vertices
`u, v`: `has_edge(u, v) == has_edge(v, u)`, and whenever
`get_edge_weight(u, v)` returns a weight, `get_edge_weight(v, u)` returns
the same weight.  (Both follow from the invariant that the adjacency
grid of an undirected graph stays symmetric under every operation — even
under `StaticGraph`'s broken `remove_vertex`, which leaves the matrix
untouched.) -/
theorem C4_undirected_symmetry (vs : List ℕ) (ops : List Op) (u v : ℕ) :
    has_edge (runStatic (init false vs) ops) u v
      = has_edge (runStatic (init false vs) ops) v u
    ∧ (∀ w : ℚ, get_edge_weight (runStatic (init false vs) ops) u v = .ok w
        → get_edge_weight (runStatic (init false vs) ops) v u = .ok w)
    ∧ has_edge (runDynamic (init false vs) ops) u v
      = has_edge (runDynamic (init false vs) ops) v u
    ∧ (∀ w : ℚ, get_edge_weight (runDynamic (init false vs) ops) u v = .ok w
        → get_edge_weight (runDynamic (init false vs) ops) v u = .ok w) := by
  have hsS := symMat_runStatic (wfS_init false vs) rfl (symMat_init false vs) ops
  have hsD := symMat_runDynamic (wfD_init false vs) rfl (symMat_init false vs) ops
  exact ⟨has_edge_symm_of_symMat hsS u v,
    fun w h => get_edge_weight_symm_of_symMat hsS u v w h,
    has_edge_symm_of_symMat hsD u v,
    fun w h => get_edge_weight_symm_of_symMat hsD u v w h⟩

/-- Witness for C4 on a concrete run: the weight implication fires. -/
theorem C4_undirected_symmetry_witness :
    get_edge_weight (runStatic (init false [0, 1]) [.addEdge 0 1 5]) 1 0
      = .ok 5
    ∧ get_edge_weight (runDynamic (init false [0, 1]) [.addEdge 0 1 5]) 1 0
      = .ok 5 :=
  ⟨(C4_undirected_symmetry [0, 1] [.addEdge 0 1 5] 0 1).2.1 5 (by rfl),
   (C4_undirected_symmetry [0, 1] [.addEdge 0 1 5] 0 1).2.2.2 5 (by rfl)⟩

/-- **C8** (confirmed).  On every reachable graph of either backend with
`v1` and `v2` present, immediately after `add_edge(v1, v2, w)` the query
`get_edge_weight(v1, v2)` returns `w`, and on an undirected graph
`get_edge_weight(v2, v1)` returns `w` too. -/
theorem C8_weight_fidelity (d : Bool) (vs : List ℕ) (ops : List Op)
    (v1 v2 : ℕ) (w : ℚ) :
    (v1 ∈ (runStatic (init d vs) ops).vertices →
      v2 ∈ (runStatic (init d vs) ops).vertices →
      get_edge_weight
          (add_edge (runStatic (init d vs) ops) v1 v2 w).2 v1 v2 = .ok w
      ∧ (d = false →
        get_edge_weight
          (add_edge (runStatic (init d vs) ops) v1 v2 w).2 v2 v1 = .ok w))
    ∧ (v1 ∈ (runDynamic (init d vs) ops).vertices →
      v2 ∈ (runDynamic (init d vs) ops).vertices →
      get_edge_weight
          (add_edge (runDynamic (init d vs) ops) v1 v2 w).2 v1 v2 = .ok w
      ∧ (d = false →
        get_edge_weight
          (add_edge (runDynamic (init d vs) ops) v1 v2 w).2 v2 v1 = .ok w)) := by
  constructor
  · intro h1 h2
    obtain ⟨hSq, hle⟩ := wfS_run (wfS_init d vs) ops
    have hmain := get_edge_weight_add_edge hSq hle h1 h2 w
    refine ⟨hmain.1, fun hdf => hmain.2 ?_⟩
    rw [directed_runStatic]
    exact hdf
  · intro h1 h2
    obtain ⟨hSq, heq⟩ := wfD_run (wfD_init d vs) ops
    have hmain := get_edge_weight_add_edge hSq (le_of_eq heq.symm) h1 h2 w
    refine ⟨hmain.1, fun hdf => hmain.2 ?_⟩
    rw [directed_runDynamic]
    exact hdf

/-- Witness for C8: concrete two-vertex graphs, weight 7/2, read back in
both directions. -/
theorem C8_weight_fidelity_witness :
    get_edge_weight
        (add_edge (runStatic (init false [0, 1]) []) 0 1 (7 / 2)).2 0 1
      = .ok (7 / 2)
    ∧ get_edge_weight
        (add_edge (runDynamic (init false [0, 1]) []) 0 1 (7 / 2)).2 1 0
      = .ok (7 / 2) :=
  ⟨((C8_weight_fidelity false [0, 1] [] 0 1 (7 / 2)).1
      (by decide) (by decide)).1,
   ((C8_weight_fidelity false [0, 1] [] 0 1 (7 / 2)).2
      (by decide) (by decide)).2 rfl⟩

/-- **C5** (counterexample).  The claim says that when the edge exists,
`remove_edge` purges the edge's attribute map from `edge_attributes`.
On the undirected graph `[0, 1]` with edge `(0, 1)`, after
`remove_edge(0, 1)` the adjacency entry is gone but
`edge_attributes[(0, 1)]` is still present, refuting the purge clause. -/
theorem C5_counterexample_attrs_not_purged :
    (remove_edge (runDynamic (init false [0, 1]) [.addEdge 0 1 1])
        0 1).2.2.edge_attributes = [(.pair 0 1, [])]
    ∧ has_edge (remove_edge (runDynamic (init false [0, 1])
        [.addEdge 0 1 1]) 0 1).2.2 0 1 = false := by decide

/-- **C6** (counterexample).  The claim says a failing `add_vertex` leaves
the graph unchanged, and that `add_vertex` of an absent vertex always
succeeds.  Both parts fail: (i) `add_vertex(0)` on a graph whose vertex
`0` carries the attribute `{5: 7}` raises `DuplicateVertex` *after*
resetting that attribute entry to `{}` (the write precedes the check);
(ii) on a `StaticGraph` that has seen a `remove_vertex` (which never
shrinks the matrix), `add_vertex` of a fresh vertex raises numpy's
dimension-mismatch `ValueError` instead of succeeding. -/
theorem C6_counterexample_add_vertex :
    (add_vertex_dynamic
        (runDynamic (init false [0]) [.setVertexAttr 0 5 7]) 0).1
      = some (.alreadyInGraph 0)
    ∧ (add_vertex_dynamic
        (runDynamic (init false [0]) [.setVertexAttr 0 5 7]) 0).2
      ≠ runDynamic (init false [0]) [.setVertexAttr 0 5 7]
    ∧ (runDynamic (init false [0])
        [.setVertexAttr 0 5 7]).vertex_attributes = [(0, [(5, 7)])]
    ∧ ((add_vertex_dynamic
        (runDynamic (init false [0]) [.setVertexAttr 0 5 7]) 0).2
        |>.vertex_attributes) = [(0, [])]
    ∧ (add_vertex_static
        (runStatic (init false [0, 1]) [.removeVertex 0]) 2).1
      = some .npDimMismatch := by decide

theorem dGet_dSet_self {α β : Type} [DecidableEq α]
    (d : List (α × β)) (k : α) (x : β) : dGet (dSet d k x) k = some x := by
  induction d with
  | nil => simp [dSet, dGet]
  | cons p rest ih =>
    by_cases hk : p.1 = k
    · simp [dSet, dGet, hk]
    · simp only [dSet, dGet, hk, if_false]
      exact ih

/-- The full effect of `remove_edge` on a well-formed graph with both
endpoints present, split by whether the adjacency cell is defined. -/
theorem remove_edge_effects {G : CyGraph}
    (hSq : SquareMat G.adjacency_matrix)
    (hle : G.vertices.length ≤ G.adjacency_matrix.length)
    {v1 v2 : ℕ} (h1 : v1 ∈ G.vertices) (h2 : v2 ∈ G.vertices) :
    (cell G.adjacency_matrix (pyIndex G.vertices v1)
        (pyIndex G.vertices v2) = none →
      remove_edge G v1 v2 = (none, true, G))
    ∧ (∀ w : ℚ, cell G.adjacency_matrix (pyIndex G.vertices v1)
        (pyIndex G.vertices v2) = some w →
      (remove_edge G v1 v2).1 = none
      ∧ (remove_edge G v1 v2).2.1 = false
      ∧ (remove_edge G v1 v2).2.2.directed = G.directed
      ∧ (remove_edge G v1 v2).2.2.vertices = G.vertices
      ∧ (remove_edge G v1 v2).2.2.vertex_attributes = G.vertex_attributes
      ∧ (remove_edge G v1 v2).2.2.edge_attributes = G.edge_attributes
      ∧ cell (remove_edge G v1 v2).2.2.adjacency_matrix
          (pyIndex G.vertices v1) (pyIndex G.vertices v2) = none
      ∧ (G.directed = false →
          cell (remove_edge G v1 v2).2.2.adjacency_matrix
            (pyIndex G.vertices v2) (pyIndex G.vertices v1) = none)
      ∧ (∀ i j, ¬(i = pyIndex G.vertices v1 ∧ j = pyIndex G.vertices v2) →
          ¬(i = pyIndex G.vertices v2 ∧ j = pyIndex G.vertices v1) →
          cell (remove_edge G v1 v2).2.2.adjacency_matrix i j
            = cell G.adjacency_matrix i j)) := by
  have hu : pyIndex G.vertices v1 < G.adjacency_matrix.length :=
    lt_of_lt_of_le (pyIndex_lt_length h1) hle
  have hv : pyIndex G.vertices v2 < G.adjacency_matrix.length :=
    lt_of_lt_of_le (pyIndex_lt_length h2) hle
  have hSq1 := squareMat_setCell hSq (pyIndex G.vertices v1)
    (pyIndex G.vertices v2) none
  have hlen1 := length_setCell G.adjacency_matrix (pyIndex G.vertices v1)
    (pyIndex G.vertices v2) none
  constructor
  · intro hc
    exact remove_edge_no_cell h1 h2 hc
  · intro w hc
    rw [remove_edge_cell h1 h2 hc]
    refine ⟨rfl, rfl, rfl, rfl, rfl, rfl, ?_, ?_, ?_⟩
    · dsimp only
      by_cases hd : G.directed = true
      · rw [if_pos hd, cell_setCell hSq hu hv]
        simp
      · rw [if_neg hd,
          cell_setCell hSq1 (by rw [hlen1]; exact hv) (by rw [hlen1]; exact hu)]
        by_cases he : pyIndex G.vertices v2 = pyIndex G.vertices v1
        · rw [if_pos ⟨he, he.symm⟩]
        · rw [if_neg (fun hx => he hx.1), cell_setCell hSq hu hv]
          simp
    · intro hd
      dsimp only
      rw [if_neg (by rw [hd]; exact Bool.false_ne_true),
        cell_setCell hSq1 (by rw [hlen1]; exact hv) (by rw [hlen1]; exact hu)]
      simp
    · intro i j hij1 hij2
      dsimp only
      by_cases hd : G.directed = true
      · rw [if_pos hd, cell_setCell hSq hu hv,
          if_neg (fun hx => hij1 ⟨hx.1.symm, hx.2.symm⟩)]
      · rw [if_neg hd,
          cell_setCell hSq1 (by rw [hlen1]; exact hv) (by rw [hlen1]; exact hu),
          if_neg (fun hx => hij2 ⟨hx.1.symm, hx.2.symm⟩),
          cell_setCell hSq hu hv,
          if_neg (fun hx => hij1 ⟨hx.1.symm, hx.2.symm⟩)]

/-- **C5** (amended, proved).  On every reachable graph of either backend
with `v1` and `v2` present: if the adjacency cell is absent,
`remove_edge(v1, v2)` raises nothing, emits the warning, and returns with
the graph object entirely unchanged; if the cell is defined,
`remove_edge` raises nothing, emits no warning, clears the cell (and its
mirror when undirected), and changes nothing else — in particular
`edge_attributes` keeps the edge's attribute map (the purge the original
claim asserts does not happen; see the counterexample). -/
theorem C5_amended_remove_edge (d : Bool) (vs : List ℕ) (ops : List Op)
    (v1 v2 : ℕ) :
    (v1 ∈ (runStatic (init d vs) ops).vertices →
      v2 ∈ (runStatic (init d vs) ops).vertices →
      (cell (runStatic (init d vs) ops).adjacency_matrix
          (pyIndex (runStatic (init d vs) ops).vertices v1)
          (pyIndex (runStatic (init d vs) ops).vertices v2) = none →
        remove_edge (runStatic (init d vs) ops) v1 v2
          = (none, true, runStatic (init d vs) ops))
      ∧ (∀ w : ℚ, cell (runStatic (init d vs) ops).adjacency_matrix
          (pyIndex (runStatic (init d vs) ops).vertices v1)
          (pyIndex (runStatic (init d vs) ops).vertices v2) = some w →
        (remove_edge (runStatic (init d vs) ops) v1 v2).1 = none
        ∧ (remove_edge (runStatic (init d vs) ops) v1 v2).2.1 = false
        ∧ (remove_edge (runStatic (init d vs) ops) v1 v2).2.2.vertices
            = (runStatic (init d vs) ops).vertices
        ∧ (remove_edge (runStatic (init d vs) ops) v1 v2).2.2.vertex_attributes
            = (runStatic (init d vs) ops).vertex_attributes
        ∧ (remove_edge (runStatic (init d vs) ops) v1 v2).2.2.edge_attributes
            = (runStatic (init d vs) ops).edge_attributes
        ∧ cell (remove_edge (runStatic (init d vs) ops) v1 v2).2.2.adjacency_matrix
            (pyIndex (runStatic (init d vs) ops).vertices v1)
            (pyIndex (runStatic (init d vs) ops).vertices v2) = none
        ∧ (d = false →
          cell (remove_edge (runStatic (init d vs) ops) v1 v2).2.2.adjacency_matrix
            (pyIndex (runStatic (init d vs) ops).vertices v2)
            (pyIndex (runStatic (init d vs) ops).vertices v1) = none)))
    ∧ (v1 ∈ (runDynamic (init d vs) ops).vertices →
      v2 ∈ (runDynamic (init d vs) ops).vertices →
      (cell (runDynamic (init d vs) ops).adjacency_matrix
          (pyIndex (runDynamic (init d vs) ops).vertices v1)
          (pyIndex (runDynamic (init d vs) ops).vertices v2) = none →
        remove_edge (runDynamic (init d vs) ops) v1 v2
          = (none, true, runDynamic (init d vs) ops))
      ∧ (∀ w : ℚ, cell (runDynamic (init d vs) ops).adjacency_matrix
          (pyIndex (runDynamic (init d vs) ops).vertices v1)
          (pyIndex (runDynamic (init d vs) ops).vertices v2) = some w →
        (remove_edge (runDynamic (init d vs) ops) v1 v2).1 = none
        ∧ (remove_edge (runDynamic (init d vs) ops) v1 v2).2.1 = false
        ∧ (remove_edge (runDynamic (init d vs) ops) v1 v2).2.2.vertices
            = (runDynamic (init d vs) ops).vertices
        ∧ (remove_edge (runDynamic (init d vs) ops) v1 v2).2.2.vertex_attributes
            = (runDynamic (init d vs) ops).vertex_attributes
        ∧ (remove_edge (runDynamic (init d vs) ops) v1 v2).2.2.edge_attributes
            = (runDynamic (init d vs) ops).edge_attributes
        ∧ cell (remove_edge (runDynamic (init d vs) ops) v1 v2).2.2.adjacency_matrix
            (pyIndex (runDynamic (init d vs) ops).vertices v1)
            (pyIndex (runDynamic (init d vs) ops).vertices v2) = none
        ∧ (d = false →
          cell (remove_edge (runDynamic (init d vs) ops) v1 v2).2.2.adjacency_matrix
            (pyIndex (runDynamic (init d vs) ops).vertices v2)
            (pyIndex (runDynamic (init d vs) ops).vertices v1) = none))) := by
  constructor
  · intro h1 h2
    obtain ⟨hSq, hle⟩ := wfS_run (wfS_init d vs) ops
    have he := remove_edge_effects hSq hle h1 h2
    refine ⟨he.1, fun w hc => ?_⟩
    obtain ⟨e1, e2, -, e4, e5, e6, e7, e8, -⟩ := he.2 w hc
    exact ⟨e1, e2, e4, e5, e6, e7,
      fun hdf => e8 (by rw [directed_runStatic]; exact hdf)⟩
  · intro h1 h2
    obtain ⟨hSq, heq⟩ := wfD_run (wfD_init d vs) ops
    have he := remove_edge_effects hSq (le_of_eq heq.symm) h1 h2
    refine ⟨he.1, fun w hc => ?_⟩
    obtain ⟨e1, e2, -, e4, e5, e6, e7, e8, -⟩ := he.2 w hc
    exact ⟨e1, e2, e4, e5, e6, e7,
      fun hdf => e8 (by rw [directed_runDynamic]; exact hdf)⟩

/-- Witness for the amended C5: both branches fire on concrete graphs. -/
theorem C5_amended_remove_edge_witness :
    remove_edge (runStatic (init false [0, 1]) []) 0 1
      = (none, true, runStatic (init false [0, 1]) [])
    ∧ (remove_edge (runDynamic (init false [0, 1]) [.addEdge 0 1 1]) 0 1).2.2.edge_attributes
      = (runDynamic (init false [0, 1]) [.addEdge 0 1 1]).edge_attributes :=
  ⟨((C5_amended_remove_edge false [0, 1] [] 0 1).1
      (by decide) (by decide)).1 (by rfl),
   (((C5_amended_remove_edge false [0, 1] [.addEdge 0 1 1] 0 1).2
      (by decide) (by decide)).2 1 (by rfl)).2.2.2.2.1⟩

/-- The success-path effects of `add_vertex` shared by both backends,
stated on the grown matrix form `(M.map (· ++ [none])) ++ [replicate
(n+1) none]`. -/
theorem add_vertex_grow_cells {M : Mat} {n : ℕ} (hSq : SquareMat M)
    (hlen : M.length = n) :
    ((M.map (· ++ [none])) ++ [List.replicate (n + 1) none]).length = n + 1
    ∧ (∀ j, cell ((M.map (· ++ [none]))
        ++ [List.replicate (n + 1) none]) n j = none)
    ∧ (∀ i, cell ((M.map (· ++ [none]))
        ++ [List.replicate (n + 1) none]) i n = none)
    ∧ (∀ i j, i < n → j < n →
        cell ((M.map (· ++ [none])) ++ [List.replicate (n + 1) none]) i j
          = cell M i j) := by
  refine ⟨by simp [hlen], ?_, ?_, ?_⟩
  · intro j
    rw [cell_grow hSq hlen]
    simp
  · intro i
    rw [cell_grow hSq hlen]
    simp
  · intro i j hi hj
    rw [cell_grow hSq hlen, if_pos ⟨hi, hj⟩]

/-- **C6** (amended, proved).  On every reachable graph of either
backend: when `v` is already present, `add_vertex(v)` raises
`DuplicateVertex` but first resets `v`'s attribute entry to the empty
map — that reset is the only state change (so the original claim's
"state unchanged" fails; see the counterexample).  When `v` is absent,
`DynamicGraph.add_vertex` appends `v`, initializes empty attributes and
grows the adjacency storage by one all-absent row and column;
`StaticGraph.add_vertex` does the same provided its matrix still has one
row per vertex — which a prior `remove_vertex` breaks, making the grow
step raise instead (counterexample again). -/
theorem C6_amended_add_vertex (d : Bool) (vs : List ℕ) (ops : List Op)
    (v : ℕ) :
    (v ∈ (runStatic (init d vs) ops).vertices →
      add_vertex_static (runStatic (init d vs) ops) v
        = (some (.alreadyInGraph v),
          { runStatic (init d vs) ops with
            vertex_attributes :=
              dSet (runStatic (init d vs) ops).vertex_attributes v [] }))
    ∧ (v ∈ (runDynamic (init d vs) ops).vertices →
      add_vertex_dynamic (runDynamic (init d vs) ops) v
        = (some (.alreadyInGraph v),
          { runDynamic (init d vs) ops with
            vertex_attributes :=
              dSet (runDynamic (init d vs) ops).vertex_attributes v [] }))
    ∧ (v ∉ (runStatic (init d vs) ops).vertices →
      (runStatic (init d vs) ops).adjacency_matrix.length
          = (runStatic (init d vs) ops).vertices.length →
      (add_vertex_static (runStatic (init d vs) ops) v).1 = none
      ∧ (add_vertex_static (runStatic (init d vs) ops) v).2.vertices
          = (runStatic (init d vs) ops).vertices ++ [v]
      ∧ dGet (add_vertex_static (runStatic (init d vs) ops) v).2.vertex_attributes v
          = some []
      ∧ (add_vertex_static (runStatic (init d vs) ops) v).2.adjacency_matrix.length
          = (runStatic (init d vs) ops).vertices.length + 1
      ∧ (∀ j, cell (add_vertex_static (runStatic (init d vs) ops) v).2.adjacency_matrix
            (runStatic (init d vs) ops).vertices.length j = none)
      ∧ (∀ i, cell (add_vertex_static (runStatic (init d vs) ops) v).2.adjacency_matrix
            i (runStatic (init d vs) ops).vertices.length = none)
      ∧ (∀ i j, i < (runStatic (init d vs) ops).vertices.length →
            j < (runStatic (init d vs) ops).vertices.length →
            cell (add_vertex_static (runStatic (init d vs) ops) v).2.adjacency_matrix i j
              = cell (runStatic (init d vs) ops).adjacency_matrix i j))
    ∧ (v ∉ (runDynamic (init d vs) ops).vertices →
      (add_vertex_dynamic (runDynamic (init d vs) ops) v).1 = none
      ∧ (add_vertex_dynamic (runDynamic (init d vs) ops) v).2.vertices
          = (runDynamic (init d vs) ops).vertices ++ [v]
      ∧ dGet (add_vertex_dynamic (runDynamic (init d vs) ops) v).2.vertex_attributes v
          = some []
      ∧ (add_vertex_dynamic (runDynamic (init d vs) ops) v).2.adjacency_matrix.length
          = (runDynamic (init d vs) ops).vertices.length + 1
      ∧ (∀ j, cell (add_vertex_dynamic (runDynamic (init d vs) ops) v).2.adjacency_matrix
            (runDynamic (init d vs) ops).vertices.length j = none)
      ∧ (∀ i, cell (add_vertex_dynamic (runDynamic (init d vs) ops) v).2.adjacency_matrix
            i (runDynamic (init d vs) ops).vertices.length = none)
      ∧ (∀ i j, i < (runDynamic (init d vs) ops).vertices.length →
            j < (runDynamic (init d vs) ops).vertices.length →
            cell (add_vertex_dynamic (runDynamic (init d vs) ops) v).2.adjacency_matrix i j
              = cell (runDynamic (init d vs) ops).adjacency_matrix i j)) := by
  obtain ⟨hSqS, hleS⟩ := wfS_run (wfS_init d vs) ops
  obtain ⟨hSqD, heqD⟩ := wfD_run (wfD_init d vs) ops
  refine ⟨fun hv => add_vertex_static_dup hv,
    fun hv => add_vertex_dynamic_dup hv, ?_, ?_⟩
  · intro hv hlen
    by_cases h0 : (runStatic (init d vs) ops).vertices.length = 0
    · rw [add_vertex_static_fresh_empty hv h0]
      refine ⟨rfl, rfl, dGet_dSet_self _ _ _, ?_, ?_, ?_, ?_⟩
      · show (fullNone 1).length = _
        simp [fullNone, h0]
      · intro j
        show cell (fullNone 1) _ _ = none
        rw [cell_fullNone]
      · intro i
        show cell (fullNone 1) _ _ = none
        rw [cell_fullNone]
      · intro i j hi hj
        omega
    · have hdim : ((runStatic (init d vs) ops).adjacency_matrix.head?.map
          List.length).getD 0 = (runStatic (init d vs) ops).vertices.length
          ∧ (runStatic (init d vs) ops).adjacency_matrix.length
            = (runStatic (init d vs) ops).vertices.length := by
        refine ⟨?_, hlen⟩
        rw [head_length_of_square hSqS (by omega), hlen]
      rw [add_vertex_static_fresh_ok hv h0 hdim]
      have hg := add_vertex_grow_cells hSqS hlen
      rw [grow_forms_eq] at *
      exact ⟨rfl, rfl, dGet_dSet_self _ _ _, hg.1, hg.2.1, hg.2.2.1, hg.2.2.2⟩
  · intro hv
    rw [add_vertex_dynamic_fresh hv]
    have hg := add_vertex_grow_cells hSqD heqD
    exact ⟨rfl, rfl, dGet_dSet_self _ _ _, hg.1, hg.2.1, hg.2.2.1, hg.2.2.2⟩

/-- Witness for the amended C6: the duplicate branch and the dynamic
success branch at concrete inputs. -/
theorem C6_amended_add_vertex_witness :
    add_vertex_static (runStatic (init false [0]) []) 0
      = (some (.alreadyInGraph 0),
        { runStatic (init false [0]) [] with
          vertex_attributes :=
            dSet (runStatic (init false [0]) []).vertex_attributes 0 [] })
    ∧ (add_vertex_dynamic (runDynamic (init false [0]) []) 1).1 = none :=
  ⟨(C6_amended_add_vertex false [0] [] 0).1 (by decide),
   ((C6_amended_add_vertex false [0] [] 1).2.2.2 (by decide)).1⟩

end Cygraph
namespace Cygraph

theorem lookupPair_nil (i j : ℕ) : lookupPair [] i j = none := rfl

theorem lookupPair_cons (q : ℕ × ℕ × ℚ) (qs : List (ℕ × ℕ × ℚ)) (i j : ℕ) :
    lookupPair (q :: qs) i j
      = if (q.1 = i ∧ q.2.1 = j) ∨ (q.1 = j ∧ q.2.1 = i) then some q.2.2
        else lookupPair qs i j := by
  unfold lookupPair
  by_cases h : (q.1 = i ∧ q.2.1 = j) ∨ (q.1 = j ∧ q.2.1 = i)
  · rw [if_pos h]
    rw [List.find?_cons_of_pos _ (by simpa using h)]
    rfl
  · rw [if_neg h]
    rw [List.find?_cons_of_neg _ (by simpa using h)]

theorem lookupPair_eq_none {qs : List (ℕ × ℕ × ℚ)} {i j : ℕ}
    (h : ∀ q ∈ qs, ¬((q.1 = i ∧ q.2.1 = j) ∨ (q.1 = j ∧ q.2.1 = i))) :
    lookupPair qs i j = none := by
  unfold lookupPair
  rw [List.find?_eq_none.mpr (fun q hq => by simpa using h q hq)]
  rfl

theorem lookupPair_some {qs : List (ℕ × ℕ × ℚ)} {i j : ℕ} {w : ℚ}
    (h : lookupPair qs i j = some w) :
    ∃ q ∈ qs, ((q.1 = i ∧ q.2.1 = j) ∨ (q.1 = j ∧ q.2.1 = i))
      ∧ q.2.2 = w := by
  unfold lookupPair at h
  cases hf : qs.find? fun q =>
      decide ((q.1 = i ∧ q.2.1 = j) ∨ (q.1 = j ∧ q.2.1 = i)) with
  | none => rw [hf] at h; cases h
  | some q =>
    rw [hf] at h
    refine ⟨q, List.mem_of_find?_eq_some hf, ?_, ?_⟩
    · simpa using List.find?_some hf
    · simpa using h

theorem foldl_bind' {α β γ : Type} (l : List α) (g : α → List β)
    (f : γ → β → γ) (a : γ) :
    (l.bind g).foldl f a = l.foldl (fun acc x => (g x).foldl f acc) a := by
  induction l generalizing a with
  | nil => rfl
  | cons x xs ih =>
    show List.foldl f a (g x ++ xs.bind g) = _
    rw [List.foldl_append, ih]
    rfl

theorem buildEdges_vertices (G : CyGraph) (ps : List (ℕ × ℕ × ℚ)) :
    (buildEdges G ps).vertices = G.vertices
    ∧ (buildEdges G ps).directed = G.directed := by
  induction ps generalizing G with
  | nil => exact ⟨rfl, rfl⟩
  | cons p ps ih =>
    show (buildEdges (add_edge G p.1 p.2.1 p.2.2).2 ps).vertices = _
      ∧ (buildEdges (add_edge G p.1 p.2.1 p.2.2).2 ps).directed = _
    rcases ih (add_edge G p.1 p.2.1 p.2.2).2 with ⟨h1, h2⟩
    rw [h1, h2]
    by_cases hm1 : p.1 ∈ G.vertices
    · by_cases hm2 : p.2.1 ∈ G.vertices
      · rw [add_edge_present hm1 hm2]
        exact ⟨rfl, rfl⟩
      · rw [add_edge_absent2 hm1 hm2]
        exact ⟨rfl, rfl⟩
    · rw [add_edge_absent1 hm1]
      exact ⟨rfl, rfl⟩

theorem buildEdges_wf {G : CyGraph} (hSq : SquareMat G.adjacency_matrix)
    (hlen : G.adjacency_matrix.length = G.vertices.length)
    (ps : List (ℕ × ℕ × ℚ)) :
    SquareMat (buildEdges G ps).adjacency_matrix
    ∧ (buildEdges G ps).adjacency_matrix.length
      = (buildEdges G ps).vertices.length := by
  induction ps generalizing G with
  | nil => exact ⟨hSq, hlen⟩
  | cons p ps ih =>
    show SquareMat
        (buildEdges (add_edge G p.1 p.2.1 p.2.2).2 ps).adjacency_matrix
      ∧ (buildEdges (add_edge G p.1 p.2.1 p.2.2).2 ps).adjacency_matrix.length
        = (buildEdges (add_edge G p.1 p.2.1 p.2.2).2 ps).vertices.length
    by_cases hm1 : p.1 ∈ G.vertices
    · by_cases hm2 : p.2.1 ∈ G.vertices
      · refine ih ?_ ?_
        · rw [add_edge_present hm1 hm2]
          dsimp only
          split
          · exact squareMat_setCell hSq _ _ _
          · exact squareMat_setCell (squareMat_setCell hSq _ _ _) _ _ _
        · rw [add_edge_present hm1 hm2]
          dsimp only
          split <;> simp [length_setCell, hlen]
      · rw [add_edge_absent2 hm1 hm2]
        exact ih hSq hlen
    · rw [add_edge_absent1 hm1]
      exact ih hSq hlen

end Cygraph
namespace Cygraph

theorem or_some {α : Type} (a : α) (o : Option α) :
    (some a).or o = some a := rfl

theorem cell_buildEdges {vs : List ℕ} :
    ∀ (ps : List (ℕ × ℕ × ℚ)) (G : CyGraph),
    G.vertices = vs → G.directed = false →
    SquareMat G.adjacency_matrix →
    G.adjacency_matrix.length = vs.length →
    (∀ p ∈ ps, p.1 ∈ vs ∧ p.2.1 ∈ vs) →
    (ps.Pairwise fun p q =>
      p.1 ≠ q.1 ∧ p.1 ≠ q.2.1 ∧ p.2.1 ≠ q.1 ∧ p.2.1 ≠ q.2.1) →
    ∀ i j, cell (buildEdges G ps).adjacency_matrix i j
      = (lookupPair
          (ps.map fun p => (pyIndex vs p.1, pyIndex vs p.2.1, p.2.2)) i j).or
          (cell G.adjacency_matrix i j) := by
  intro ps
  induction ps with
  | nil =>
    intro G hvs hdir hSq hlen hmem hdisj i j
    rw [List.map_nil, lookupPair_nil, Option.none_or]
    rfl
  | cons p ps ih =>
    intro G hvs hdir hSq hlen hmem hdisj i j
    obtain ⟨hm1', hm2'⟩ := hmem p (List.mem_cons_self p ps)
    have hm1 : p.1 ∈ G.vertices := by rw [hvs]; exact hm1'
    have hm2 : p.2.1 ∈ G.vertices := by rw [hvs]; exact hm2'
    have hu : pyIndex vs p.1 < G.adjacency_matrix.length := by
      rw [hlen]; exact pyIndex_lt_length hm1'
    have hv : pyIndex vs p.2.1 < G.adjacency_matrix.length := by
      rw [hlen]; exact pyIndex_lt_length hm2'
    have hpy1 : pyIndex G.vertices p.1 = pyIndex vs p.1 := by rw [hvs]
    have hpy2 : pyIndex G.vertices p.2.1 = pyIndex vs p.2.1 := by rw [hvs]
    have hstep : (add_edge G p.1 p.2.1 p.2.2).2
        = { G with
            edge_attributes := dSet G.edge_attributes (.pair p.1 p.2.1) []
            adjacency_matrix :=
              setCell (setCell G.adjacency_matrix (pyIndex vs p.1)
                (pyIndex vs p.2.1) (some p.2.2)) (pyIndex vs p.2.1)
                (pyIndex vs p.1) (some p.2.2) } := by
      rw [add_edge_present hm1 hm2]
      dsimp only
      rw [hpy1, hpy2, if_neg (by rw [hdir]; exact Bool.false_ne_true)]
    have hSq1 := squareMat_setCell hSq (pyIndex vs p.1) (pyIndex vs p.2.1)
      (some p.2.2)
    have hlen1 := length_setCell G.adjacency_matrix (pyIndex vs p.1)
      (pyIndex vs p.2.1) (some p.2.2)
    have hcell' : ∀ i' j',
        cell (setCell (setCell G.adjacency_matrix (pyIndex vs p.1)
          (pyIndex vs p.2.1) (some p.2.2)) (pyIndex vs p.2.1)
          (pyIndex vs p.1) (some p.2.2)) i' j'
        = if pyIndex vs p.2.1 = i' ∧ pyIndex vs p.1 = j' then some p.2.2
          else if pyIndex vs p.1 = i' ∧ pyIndex vs p.2.1 = j' then some p.2.2
          else cell G.adjacency_matrix i' j' := by
      intro i' j'
      rw [cell_setCell hSq1 (by rw [hlen1]; exact hv) (by rw [hlen1]; exact hu),
        cell_setCell hSq hu hv]
    have hQ := (List.pairwise_cons.mp hdisj).1
    show cell (buildEdges (add_edge G p.1 p.2.1 p.2.2).2 ps).adjacency_matrix i j = _
    rw [hstep]
    have ihap := ih
      { G with
        edge_attributes := dSet G.edge_attributes (.pair p.1 p.2.1) []
        adjacency_matrix :=
          setCell (setCell G.adjacency_matrix (pyIndex vs p.1)
            (pyIndex vs p.2.1) (some p.2.2)) (pyIndex vs p.2.1)
            (pyIndex vs p.1) (some p.2.2) }
      hvs hdir
      (squareMat_setCell hSq1 (pyIndex vs p.2.1) (pyIndex vs p.1) (some p.2.2))
      (by dsimp only; rw [length_setCell, hlen1]; exact hlen)
      (fun p' hp' => hmem p' (List.mem_cons_of_mem p hp'))
      (List.pairwise_cons.mp hdisj).2 i j
    rw [ihap]
    rw [List.map_cons, lookupPair_cons]
    by_cases h : (pyIndex vs p.1 = i ∧ pyIndex vs p.2.1 = j)
        ∨ (pyIndex vs p.1 = j ∧ pyIndex vs p.2.1 = i)
    · rw [if_pos h, or_some]
      have hnone : lookupPair
          (ps.map fun p => (pyIndex vs p.1, pyIndex vs p.2.1, p.2.2)) i j
          = none := by
        apply lookupPair_eq_none
        intro q' hq' hmatch
        obtain ⟨p', hp', rfl⟩ := List.mem_map.mp hq'
        obtain ⟨hn1, hn2, hn3, hn4⟩ := hQ p' hp'
        obtain ⟨hm1p, hm2p⟩ := hmem p' (List.mem_cons_of_mem p hp')
        rcases h with ⟨hi, hj⟩ | ⟨hi, hj⟩ <;>
          rcases hmatch with ⟨ha, hb⟩ | ⟨ha, hb⟩
        · exact hn1 (pyIndex_inj hm1' hm1p (by rw [hi, ← ha]))
        · exact hn2 (pyIndex_inj hm1' hm2p (by rw [hi, ← hb]))
        · exact hn3 (pyIndex_inj hm2' hm1p (by rw [hj, ← ha]))
        · exact hn1 (pyIndex_inj hm1' hm1p (by rw [hi, ← ha]))
      rw [hnone, Option.none_or, hcell']
      rcases h with ⟨h1, h2⟩ | ⟨h1, h2⟩
      · by_cases hx : pyIndex vs p.2.1 = i ∧ pyIndex vs p.1 = j
        · rw [if_pos hx]
        · rw [if_neg hx, if_pos ⟨h1, h2⟩]
      · rw [if_pos ⟨h2, h1⟩]
    · rw [if_neg h, hcell',
        if_neg (fun hc => h (Or.inr ⟨hc.2, hc.1⟩)),
        if_neg (fun hc => h (Or.inl hc))]

end Cygraph
namespace Cygraph

theorem canon_asc {q : ℕ × ℕ × ℚ} (h : q.1 ≠ q.2.1) :
    (canon q).1 < (canon q).2 := by
  unfold canon
  split <;> (dsimp only; omega)

theorem canon_bounds {q : ℕ × ℕ × ℚ} {n : ℕ} (h1 : q.1 < n)
    (h2 : q.2.1 < n) : (canon q).1 < n ∧ (canon q).2 < n := by
  unfold canon
  split <;> exact ⟨by assumption, by assumption⟩

theorem canon_dirs (q : ℕ × ℕ × ℚ) :
    canon q = (q.1, q.2.1) ∨ canon q = (q.2.1, q.1) := by
  unfold canon
  split
  · exact Or.inl rfl
  · exact Or.inr rfl

theorem canon_eq_of_match {q : ℕ × ℕ × ℚ} {r s : ℕ} (hlt : r < s)
    (h : (q.1 = r ∧ q.2.1 = s) ∨ (q.1 = s ∧ q.2.1 = r)) :
    canon q = (r, s) := by
  unfold canon
  rcases h with ⟨e1, e2⟩ | ⟨e1, e2⟩
  · rw [if_pos (by omega), e1, e2]
  · rw [if_neg (by omega), e1, e2]

theorem match_of_canon {q : ℕ × ℕ × ℚ} {r s : ℕ} (h : canon q = (r, s)) :
    (q.1 = r ∧ q.2.1 = s) ∨ (q.1 = s ∧ q.2.1 = r) := by
  rcases canon_dirs q with hd | hd <;> rw [hd] at h
  · exact Or.inl ⟨congrArg Prod.fst h, congrArg Prod.snd h⟩
  · exact Or.inr ⟨congrArg Prod.snd h, congrArg Prod.fst h⟩

theorem filter_perm_of_flip {α : Type} (l : List α) (p₁ p₂ : α → Bool)
    (q₀ : α) (hq : q₀ ∈ l) (hnd : l.Nodup) (h₂ : p₂ q₀ = true)
    (h₁ : p₁ q₀ = false) (hag : ∀ x ∈ l, x ≠ q₀ → p₂ x = p₁ x) :
    (l.filter p₂).Perm (q₀ :: l.filter p₁) := by
  induction l with
  | nil => cases hq
  | cons a l' ih =>
    have hnd' := (List.nodup_cons.mp hnd).2
    have hanotin := (List.nodup_cons.mp hnd).1
    by_cases ha : a = q₀
    · subst ha
      rw [List.filter_cons, if_pos h₂, List.filter_cons,
        if_neg (by rw [h₁]; exact Bool.false_ne_true)]
      have : l'.filter p₂ = l'.filter p₁ :=
        List.filter_congr fun x hx => hag x (List.mem_cons_of_mem a hx)
          (fun he => hanotin (he ▸ hx))
      rw [this]
    · have hmem' : q₀ ∈ l' := by
        rcases List.mem_cons.mp hq with h | h
        · exact absurd h.symm ha
        · exact h
      have hpa : p₂ a = p₁ a := hag a (List.mem_cons_self a l') ha
      cases hpa' : p₁ a with
      | true =>
        rw [List.filter_cons, if_pos (by rw [hpa, hpa']),
          List.filter_cons, if_pos (by rw [hpa'])]
        refine ((ih hmem' hnd' fun x hx hxq =>
          hag x (List.mem_cons_of_mem a hx) hxq).cons a).trans ?_
        exact List.Perm.swap q₀ a _
      | false =>
        rw [List.filter_cons, if_neg (by rw [hpa, hpa']; exact Bool.false_ne_true),
          List.filter_cons, if_neg (by rw [hpa']; exact Bool.false_ne_true)]
        exact ih hmem' hnd' fun x hx hxq =>
          hag x (List.mem_cons_of_mem a hx) hxq

end Cygraph
namespace Cygraph

theorem lookupPair_none_mem {qs : List (ℕ × ℕ × ℚ)} {i j : ℕ}
    (h : lookupPair qs i j = none) :
    ∀ q ∈ qs, ¬((q.1 = i ∧ q.2.1 = j) ∨ (q.1 = j ∧ q.2.1 = i)) := by
  intro q hq hmatch
  unfold lookupPair at h
  cases hf : qs.find? fun q =>
      decide ((q.1 = i ∧ q.2.1 = j) ∨ (q.1 = j ∧ q.2.1 = i)) with
  | some q' => rw [hf] at h; cases h
  | none =>
    have h1 := List.find?_eq_none.mp hf q hq
    simp only [decide_eq_true_eq] at h1
    exact h1 hmatch

/-- One cell of the undirected `edges` scan maintains the invariant: the
collected triples are (a permutation of) one triple per edge whose
canonical cell the scan has already passed. -/
theorem edges_scan_step {vs : List ℕ} {qs : List (ℕ × ℕ × ℚ)} {M : Mat}
    (hnd : vs.Nodup)
    (hq1 : ∀ q ∈ qs, q.1 < vs.length ∧ q.2.1 < vs.length ∧ q.1 ≠ q.2.1)
    (hdisj : qs.Pairwise fun p q =>
      p.1 ≠ q.1 ∧ p.1 ≠ q.2.1 ∧ p.2.1 ≠ q.1 ∧ p.2.1 ≠ q.2.1)
    (hM : ∀ i j, cell M i j = lookupPair qs i j)
    {r s : ℕ} (hs : s < vs.length)
    {acc : List (ℕ × ℕ × ℚ)}
    (hInv : acc.Perm ((qs.filter fun q =>
      decide (scanBefore r s (canon q).1 (canon q).2)).map (tri vs))) :
    (edgesStepUndir vs M acc (r, s)).Perm
      ((qs.filter fun q =>
        decide (scanBefore r (s + 1) (canon q).1 (canon q).2)).map (tri vs)) := by
  have hqnd : qs.Nodup :=
    hdisj.imp fun hr => fun he => hr.1 (by rw [he])
  have hsymm : Symmetric (fun p q : ℕ × ℕ × ℚ =>
      p.1 ≠ q.1 ∧ p.1 ≠ q.2.1 ∧ p.2.1 ≠ q.1 ∧ p.2.1 ≠ q.2.1) :=
    fun a b ⟨x1, x2, x3, x4⟩ => ⟨x1.symm, x3.symm, x2.symm, x4.symm⟩
  unfold edgesStepUndir
  dsimp only
  rw [hM r s]
  cases hc : lookupPair qs r s with
  | none =>
    have hcongr : ∀ q ∈ qs,
        (decide (scanBefore r (s + 1) (canon q).1 (canon q).2) : Bool)
          = decide (scanBefore r s (canon q).1 (canon q).2) := by
      intro q hq
      rw [decide_eq_decide]
      have hnotc : ¬((canon q).1 = r ∧ (canon q).2 = s) := by
        rintro ⟨e1, e2⟩
        exact lookupPair_none_mem hc q hq
          (match_of_canon (by rw [← e1, ← e2]))
      unfold scanBefore
      constructor
      · rintro (h | ⟨h1, h2⟩)
        · exact Or.inl h
        · rcases Nat.lt_succ_iff_lt_or_eq.mp h2 with h3 | h3
          · exact Or.inr ⟨h1, h3⟩
          · exact absurd ⟨h1, h3⟩ hnotc
      · rintro (h | ⟨h1, h2⟩)
        · exact Or.inl h
        · exact Or.inr ⟨h1, by omega⟩
    rw [List.filter_congr hcongr]
    exact hInv
  | some w =>
    show (if (acc.any fun e =>
          decide (e.1 = vs.getD s 0 ∧ e.2.1 = vs.getD r 0)) = true then acc
        else if (vs.getD r 0, vs.getD s 0, w) ∈ acc then acc
        else acc ++ [(vs.getD r 0, vs.getD s 0, w)]).Perm _
    obtain ⟨q₀, hq₀mem, hq₀match, hq₀w⟩ := lookupPair_some hc
    obtain ⟨hq₀1, hq₀2, hq₀ne⟩ := hq1 q₀ hq₀mem
    have hrs : r ≠ s := by
      rcases hq₀match with ⟨e1, e2⟩ | ⟨e1, e2⟩ <;> (intro he; apply hq₀ne; omega)
    have huniq : ∀ q ∈ qs,
        ((q.1 = r ∧ q.2.1 = s) ∨ (q.1 = s ∧ q.2.1 = r)) → q = q₀ := by
      intro q hq hqm
      by_contra hne
      obtain ⟨n1, n2, n3, n4⟩ := hdisj.forall hsymm hq hq₀mem hne
      rcases hqm with ⟨a1, a2⟩ | ⟨a1, a2⟩ <;>
        rcases hq₀match with ⟨b1, b2⟩ | ⟨b1, b2⟩
      · exact n1 (by rw [a1, b1])
      · exact n2 (by rw [a1, b2])
      · exact n2 (by rw [a1, b2])
      · exact n1 (by rw [a1, b1])
    rcases lt_or_gt_of_ne hrs with hrlts | hsltr
    · -- the canonical (ascending) direction: the scan emits the triple
      have hr' : r < vs.length := hrlts.trans hs
      have hcq₀ : canon q₀ = (r, s) := canon_eq_of_match hrlts hq₀match
      have hnotany : ¬((acc.any fun e =>
          decide (e.1 = vs.getD s 0 ∧ e.2.1 = vs.getD r 0)) = true) := by
        intro hany
        obtain ⟨e, he, hpe⟩ := List.any_eq_true.mp hany
        rw [decide_eq_true_eq] at hpe
        rw [hInv.mem_iff] at he
        obtain ⟨q, hqf, rfl⟩ := List.mem_map.mp he
        obtain ⟨hqmem, hqpred⟩ := List.mem_filter.mp hqf
        obtain ⟨hb1, hb2, hbne⟩ := hq1 q hqmem
        obtain ⟨hc1, hc2⟩ := canon_bounds hb1 hb2
        simp only [tri] at hpe
        have e1 : (canon q).1 = s := getD_inj_of_nodup hnd hc1 hs hpe.1
        have e2 : (canon q).2 = r := getD_inj_of_nodup hnd hc2 hr' hpe.2
        have := canon_asc hbne
        omega
      have htnotin : (vs.getD r 0, vs.getD s 0, w) ∉ acc := by
        intro ht
        rw [hInv.mem_iff] at ht
        obtain ⟨q, hqf, heq⟩ := List.mem_map.mp ht
        obtain ⟨hqmem, hqpred⟩ := List.mem_filter.mp hqf
        obtain ⟨hb1, hb2, hbne⟩ := hq1 q hqmem
        obtain ⟨hc1, hc2⟩ := canon_bounds hb1 hb2
        simp only [tri, Prod.mk.injEq] at heq
        have e1 := getD_inj_of_nodup hnd hc1 hr' heq.1
        have e2 := getD_inj_of_nodup hnd hc2 hs heq.2.1
        have hcanon : canon q = (r, s) := by rw [← e1, ← e2]
        have hqq := huniq q hqmem (match_of_canon hcanon)
        subst hqq
        rw [hcq₀, decide_eq_true_eq] at hqpred
        unfold scanBefore at hqpred
        omega
      rw [if_neg hnotany, if_neg htnotin]
      have hflip := filter_perm_of_flip qs
        (fun q => decide (scanBefore r s (canon q).1 (canon q).2))
        (fun q => decide (scanBefore r (s + 1) (canon q).1 (canon q).2))
        q₀ hq₀mem hqnd
        (by dsimp only; rw [hcq₀]; exact decide_eq_true (Or.inr ⟨rfl, by omega⟩))
        (by dsimp only; rw [hcq₀]
            exact decide_eq_false (by unfold scanBefore; omega))
        (by
          intro x hx hne
          dsimp only
          rw [decide_eq_decide]
          have hnotc : ¬((canon x).1 = r ∧ (canon x).2 = s) := by
            rintro ⟨e1, e2⟩
            exact hne (huniq x hx (match_of_canon (by rw [← e1, ← e2])))
          unfold scanBefore
          constructor
          · rintro (h | ⟨h1, h2⟩)
            · exact Or.inl h
            · rcases Nat.lt_succ_iff_lt_or_eq.mp h2 with h3 | h3
              · exact Or.inr ⟨h1, h3⟩
              · exact absurd ⟨h1, h3⟩ hnotc
          · rintro (h | ⟨h1, h2⟩)
            · exact Or.inl h
            · exact Or.inr ⟨h1, by omega⟩)
      have htri : tri vs q₀ = (vs.getD r 0, vs.getD s 0, w) := by
        simp only [tri, hcq₀, hq₀w]
      refine (List.perm_append_singleton _ _).trans ?_
      refine (hInv.cons _).trans ?_
      rw [show ((vs.getD r 0, vs.getD s 0, w) :: List.map (tri vs)
          (qs.filter fun q =>
            decide (scanBefore r s (canon q).1 (canon q).2)))
          = List.map (tri vs) (q₀ :: qs.filter fun q =>
            decide (scanBefore r s (canon q).1 (canon q).2))
        from by rw [List.map_cons, htri]]
      exact (hflip.map (tri vs)).symm
    · -- the mirror direction: already collected, skipped
      have hcq₀ : canon q₀ = (s, r) := canon_eq_of_match hsltr hq₀match.symm
      have hany : (acc.any fun e =>
          decide (e.1 = vs.getD s 0 ∧ e.2.1 = vs.getD r 0)) = true := by
        apply List.any_eq_true.mpr
        refine ⟨tri vs q₀, ?_, ?_⟩
        · rw [hInv.mem_iff]
          refine List.mem_map_of_mem _ (List.mem_filter.mpr ⟨hq₀mem, ?_⟩)
          rw [hcq₀]
          exact decide_eq_true (Or.inl hsltr)
        · rw [decide_eq_true_eq]
          constructor <;> simp [tri, hcq₀]
      rw [if_pos hany]
      have hcongr : ∀ q ∈ qs,
          (decide (scanBefore r (s + 1) (canon q).1 (canon q).2) : Bool)
            = decide (scanBefore r s (canon q).1 (canon q).2) := by
        intro q hq
        rw [decide_eq_decide]
        have hnotc : ¬((canon q).1 = r ∧ (canon q).2 = s) := by
          rintro ⟨e1, e2⟩
          have := canon_asc (hq1 q hq).2.2
          omega
        unfold scanBefore
        constructor
        · rintro (h | ⟨h1, h2⟩)
          · exact Or.inl h
          · rcases Nat.lt_succ_iff_lt_or_eq.mp h2 with h3 | h3
            · exact Or.inr ⟨h1, h3⟩
            · exact absurd ⟨h1, h3⟩ hnotc
        · rintro (h | ⟨h1, h2⟩)
          · exact Or.inl h
          · exact Or.inr ⟨h1, by omega⟩
      rw [List.filter_congr hcongr]
      exact hInv

end Cygraph
namespace Cygraph

/-- A full row of the undirected `edges` scan. -/
theorem edges_scan_row {vs : List ℕ} {qs : List (ℕ × ℕ × ℚ)} {M : Mat}
    (hnd : vs.Nodup)
    (hq1 : ∀ q ∈ qs, q.1 < vs.length ∧ q.2.1 < vs.length ∧ q.1 ≠ q.2.1)
    (hdisj : qs.Pairwise fun p q =>
      p.1 ≠ q.1 ∧ p.1 ≠ q.2.1 ∧ p.2.1 ≠ q.1 ∧ p.2.1 ≠ q.2.1)
    (hM : ∀ i j, cell M i j = lookupPair qs i j) (r : ℕ) :
    ∀ (k s : ℕ), s + k = vs.length → ∀ acc : List (ℕ × ℕ × ℚ),
    acc.Perm ((qs.filter fun q =>
      decide (scanBefore r s (canon q).1 (canon q).2)).map (tri vs)) →
    (((List.range' s k).map fun v => (r, v)).foldl
        (edgesStepUndir vs M) acc).Perm
      ((qs.filter fun q =>
        decide (scanBefore r vs.length (canon q).1 (canon q).2)).map (tri vs))
    := by
  intro k
  induction k with
  | zero =>
    intro s hsk acc hInv
    rw [Nat.add_zero] at hsk
    subst hsk
    exact hInv
  | succ k ih =>
    intro s hsk acc hInv
    rw [List.range'_succ, List.map_cons, List.foldl_cons]
    exact ih (s + 1) (by omega) _
      (edges_scan_step hnd hq1 hdisj hM (by omega) hInv)

/-- All the rows of the undirected `edges` scan. -/
theorem edges_scan_rows {vs : List ℕ} {qs : List (ℕ × ℕ × ℚ)} {M : Mat}
    (hnd : vs.Nodup)
    (hq1 : ∀ q ∈ qs, q.1 < vs.length ∧ q.2.1 < vs.length ∧ q.1 ≠ q.2.1)
    (hdisj : qs.Pairwise fun p q =>
      p.1 ≠ q.1 ∧ p.1 ≠ q.2.1 ∧ p.2.1 ≠ q.1 ∧ p.2.1 ≠ q.2.1)
    (hM : ∀ i j, cell M i j = lookupPair qs i j) :
    ∀ (k r : ℕ), r + k = vs.length → ∀ acc : List (ℕ × ℕ × ℚ),
    acc.Perm ((qs.filter fun q =>
      decide (scanBefore r 0 (canon q).1 (canon q).2)).map (tri vs)) →
    ((List.range' r k).foldl (fun acc u =>
        (((List.range' 0 vs.length).map fun v => (u, v)).foldl
          (edgesStepUndir vs M) acc)) acc).Perm
      ((qs.filter fun q =>
        decide (scanBefore vs.length 0 (canon q).1 (canon q).2)).map (tri vs))
    := by
  intro k
  induction k with
  | zero =>
    intro r hrk acc hInv
    rw [Nat.add_zero] at hrk
    subst hrk
    exact hInv
  | succ k ih =>
    intro r hrk acc hInv
    rw [List.range'_succ, List.foldl_cons]
    apply ih (r + 1) (by omega)
    have hrow := edges_scan_row hnd hq1 hdisj hM r vs.length 0
      (by omega) acc hInv
    have htrans : ∀ q ∈ qs,
        (decide (scanBefore (r + 1) 0 (canon q).1 (canon q).2) : Bool)
          = decide (scanBefore r vs.length (canon q).1 (canon q).2) := by
      intro q hq
      rw [decide_eq_decide]
      obtain ⟨hb1, hb2, hbne⟩ := hq1 q hq
      obtain ⟨hc1, hc2⟩ := canon_bounds hb1 hb2
      unfold scanBefore
      omega
    rw [List.filter_congr htrans]
    exact hrow

/-- The undirected `edges` scan over a matrix built by disjoint `add_edge`
calls collects exactly one triple per call. -/
theorem edges_buildEdges_perm (vs : List ℕ) (ps : List (ℕ × ℕ × ℚ))
    (hnd : vs.Nodup)
    (hmem : ∀ p ∈ ps, p.1 ∈ vs ∧ p.2.1 ∈ vs ∧ p.1 ≠ p.2.1)
    (hdisj : ps.Pairwise fun p q =>
      p.1 ≠ q.1 ∧ p.1 ≠ q.2.1 ∧ p.2.1 ≠ q.1 ∧ p.2.1 ≠ q.2.1) :
    (edges (buildEdges (init false vs) ps)).Perm
      ((ps.map fun p =>
        (pyIndex vs p.1, pyIndex vs p.2.1, p.2.2)).map (tri vs)) := by
  have hGvs : (buildEdges (init false vs) ps).vertices = vs :=
    (buildEdges_vertices _ _).1
  have hGdir : (buildEdges (init false vs) ps).directed = false :=
    (buildEdges_vertices _ _).2
  have hGM : ∀ i j, cell (buildEdges (init false vs) ps).adjacency_matrix i j
      = lookupPair
        (ps.map fun p => (pyIndex vs p.1, pyIndex vs p.2.1, p.2.2)) i j := by
    intro i j
    rw [@cell_buildEdges vs ps (init false vs) rfl rfl (squareMat_fullNone _)
      (by simp [init, fullNone])
      (fun p hp => ⟨(hmem p hp).1, (hmem p hp).2.1⟩) hdisj i j]
    show (lookupPair _ i j).or (cell (fullNone vs.length) i j) = _
    rw [cell_fullNone, Option.or_none]
  have hq1 : ∀ q ∈ ps.map fun p => (pyIndex vs p.1, pyIndex vs p.2.1, p.2.2),
      q.1 < vs.length ∧ q.2.1 < vs.length ∧ q.1 ≠ q.2.1 := by
    intro q hq
    obtain ⟨p, hp, rfl⟩ := List.mem_map.mp hq
    obtain ⟨hp1, hp2, hpne⟩ := hmem p hp
    exact ⟨pyIndex_lt_length hp1, pyIndex_lt_length hp2,
      fun he => hpne (pyIndex_inj hp1 hp2 he)⟩
  have hqdisj : (ps.map fun p =>
      (pyIndex vs p.1, pyIndex vs p.2.1, p.2.2)).Pairwise fun p q =>
      p.1 ≠ q.1 ∧ p.1 ≠ q.2.1 ∧ p.2.1 ≠ q.1 ∧ p.2.1 ≠ q.2.1 := by
    rw [List.pairwise_map]
    refine hdisj.imp_of_mem ?_
    intro a b ha hb ⟨x1, x2, x3, x4⟩
    obtain ⟨ha1, ha2, -⟩ := hmem a ha
    obtain ⟨hb1, hb2, -⟩ := hmem b hb
    exact ⟨fun he => x1 (pyIndex_inj ha1 hb1 he),
      fun he => x2 (pyIndex_inj ha1 hb2 he),
      fun he => x3 (pyIndex_inj ha2 hb1 he),
      fun he => x4 (pyIndex_inj ha2 hb2 he)⟩
  have hedges : edges (buildEdges (init false vs) ps)
      = (gridPairs (buildEdges (init false vs) ps).vertices.length).foldl
        (edgesStepUndir (buildEdges (init false vs) ps).vertices
          (buildEdges (init false vs) ps).adjacency_matrix) [] := by
    unfold edges
    rw [if_neg (by rw [hGdir]; exact Bool.false_ne_true)]
  rw [hedges, hGvs]
  unfold gridPairs
  rw [foldl_bind']
  rw [List.range_eq_range']
  have hstart : ([] : List (ℕ × ℕ × ℚ)).Perm
      (((ps.map fun p => (pyIndex vs p.1, pyIndex vs p.2.1, p.2.2)).filter
        fun q => decide (scanBefore 0 0 (canon q).1 (canon q).2)).map
        (tri vs)) := by
    rw [show ((ps.map fun p =>
        (pyIndex vs p.1, pyIndex vs p.2.1, p.2.2)).filter
        fun q => decide (scanBefore 0 0 (canon q).1 (canon q).2)) = []
      from List.filter_eq_nil.mpr fun q hq => by
        simp only [decide_eq_true_eq]
        unfold scanBefore
        omega]
    exact List.Perm.refl _
  have hmain := edges_scan_rows hnd hq1 hqdisj hGM vs.length 0 (by omega)
    [] hstart
  have hfinal : ((ps.map fun p =>
      (pyIndex vs p.1, pyIndex vs p.2.1, p.2.2)).filter
      fun q => decide (scanBefore vs.length 0 (canon q).1 (canon q).2))
      = ps.map fun p => (pyIndex vs p.1, pyIndex vs p.2.1, p.2.2) := by
    apply List.filter_eq_self.mpr
    intro q hq
    obtain ⟨hb1, hb2, hbne⟩ := hq1 q hq
    obtain ⟨hc1, hc2⟩ := canon_bounds hb1 hb2
    exact decide_eq_true (Or.inl hc1)
  rw [hfinal] at hmain
  convert hmain using 2

end Cygraph
namespace Cygraph

/-- **C9** (confirmed).  For an undirected graph (`add_edge`, `edges` and
the adjacency update are implemented identically by both backends up to
the nan/`None` sentinel) built from `k` distinct `add_edge` calls on
pairwise disjoint vertex pairs, the `edges` property materializes exactly
`k` `(v1, v2, weight)` triples, and for each call one of its two
directions appears (whichever is internally canonical). -/
theorem C9_undirected_edges_dedup (vs : List ℕ) (ps : List (ℕ × ℕ × ℚ))
    (hnd : vs.Nodup)
    (hmem : ∀ p ∈ ps, p.1 ∈ vs ∧ p.2.1 ∈ vs ∧ p.1 ≠ p.2.1)
    (hdisj : ps.Pairwise fun p q =>
      p.1 ≠ q.1 ∧ p.1 ≠ q.2.1 ∧ p.2.1 ≠ q.1 ∧ p.2.1 ≠ q.2.1) :
    (edges (buildEdges (init false vs) ps)).length = ps.length
    ∧ ∀ p ∈ ps,
      (p.1, p.2.1, p.2.2) ∈ edges (buildEdges (init false vs) ps)
      ∨ (p.2.1, p.1, p.2.2) ∈ edges (buildEdges (init false vs) ps) := by
  have hperm := edges_buildEdges_perm vs ps hnd hmem hdisj
  constructor
  · rw [hperm.length_eq, List.length_map, List.length_map]
  · intro p hp
    have hmem2 : tri vs (pyIndex vs p.1, pyIndex vs p.2.1, p.2.2)
        ∈ edges (buildEdges (init false vs) ps) := by
      rw [hperm.mem_iff]
      exact List.mem_map_of_mem _ (List.mem_map_of_mem _ hp)
    obtain ⟨hp1, hp2, -⟩ := hmem p hp
    rcases canon_dirs (pyIndex vs p.1, pyIndex vs p.2.1, p.2.2) with hd | hd
    · left
      have ht : tri vs (pyIndex vs p.1, pyIndex vs p.2.1, p.2.2)
          = (p.1, p.2.1, p.2.2) := by
        unfold tri
        rw [hd]
        dsimp only
        rw [getD_pyIndex hp1, getD_pyIndex hp2]
      rw [← ht]
      exact hmem2
    · right
      have ht : tri vs (pyIndex vs p.1, pyIndex vs p.2.1, p.2.2)
          = (p.2.1, p.1, p.2.2) := by
        unfold tri
        rw [hd]
        dsimp only
        rw [getD_pyIndex hp1, getD_pyIndex hp2]
      rw [← ht]
      exact hmem2

/-- Witness for C9: the concrete scenario with two disjoint edges. -/
theorem C9_undirected_edges_dedup_witness :
    (edges (buildEdges (init false [0, 1, 2, 3])
      [(0, 1, 2), (2, 3, 5)])).length = 2 :=
  (C9_undirected_edges_dedup [0, 1, 2, 3] [(0, 1, 2), (2, 3, 5)]
    (by decide) (by decide) (by decide)).1

end Cygraph
